import Mathlib

/-!
# Verification of FoundryTools-CLI core routines

A shallow embedding, in Lean 4, of the repository's own logic:

* the style-bit operations and `recalcNames` of `ftcli/Lib/TTFontCLI.py`
  (`set_nth_bit`, `unset_nth_bit`, `is_nth_bit_set`, `setBold`, `setItalic`,
  `setRegular`, `unsetBold`, `unsetItalic`, `setOblique`, `unsetOblique`,
  `setMultilingualName`, `delMultilingualName`, `modifyLinegapPercent`);
* the overlap-removal routines of `ftCLI/Lib/utils/contours.py`
  (`_round_path`, `_simplify`, `ttfGlyphFromSkPath`, `componentsOverlap`,
  `removeTTGlyphOverlaps`, `fix_true_type_contours`);
* the save-decision skeleton of the name-table commands in
  `foundryToolsCLI/CLI/ftcli_name.py`.

External fontTools / skia-pathops primitives (glyph drawing through a glyph
set, `pathops.simplify`, `pathops.op`, `TTGlyphPen`, language-code tables,
`getCompositeMaxpValues`) are modelled as explicit function parameters or
as small definitions that follow their documented behaviour; Python floats
are modelled as rationals, Python unbounded ints as `Int`/`Nat`.
-/

/-! ## Python string helpers -/

/-- Replaces every non-overlapping occurrence of the (non-empty) pattern
`old` left to right, on character lists; the fuel is the input length, and
every step consumes at least one character. -/
def replaceAux (old new : List Char) : Nat → List Char → List Char
  | _, [] => []
  | 0, s => s
  | fuel + 1, c :: rest =>
    if old.isPrefixOf (c :: rest) then
      new ++ replaceAux old new fuel (rest.drop (old.length - 1))
    else
      c :: replaceAux old new fuel rest

/-- Python `s.replace(old, new)`: replaces every non-overlapping occurrence
left to right; an empty pattern inserts `new` before every character and
at the end (structural implementation so that concrete runs evaluate). -/
def pyReplace (s old new : String) : String :=
  if old.isEmpty then
    new ++ String.join (s.data.map fun c => String.singleton c ++ new)
  else
    ⟨replaceAux old.data new.data s.data.length s.data⟩

/-- Python `s.strip()`: whitespace removed from both ends. -/
def pyStrip (s : String) : String :=
  ⟨((s.data.dropWhile Char.isWhitespace).reverse.dropWhile
    Char.isWhitespace).reverse⟩

/-- Python `s.lower()` (ASCII case folding, as `str.lower` does for the
ASCII names this tool handles; structural implementation so that concrete
runs evaluate). -/
def pyLower (s : String) : String := ⟨s.data.map Char.toLower⟩

/-- Python `s.ljust(n, fill)` for a single fill character. -/
def pyLjust (s : String) (n : Nat) (fill : Char) : String :=
  s ++ String.mk (List.replicate (n - s.length) fill)

/-- Python `str(x)` for an optional string: `str(None)` is `"None"`. -/
def pyStrOfOption : Option String → String
  | some s => s
  | none => "None"

/-- Python `int()` truncation toward zero of a rational (the exact value of
the float expressions the code builds from integer inputs). -/
def pyInt (q : ℚ) : Int := q.num.tdiv q.den

/-! ## Bit helpers (`ftcli/Lib/TTFontCLI.py`, module level)

The Python operands (`fsSelection`, `macStyle`) are non-negative ints, so
`x & ~(1 << n)` coincides with `Nat.ldiff x (1 <<< n)`. -/

/-- `is_nth_bit_set(x, n)`: `x & (1 << n)` truthiness. -/
def is_nth_bit_set (x n : Nat) : Bool := x &&& (1 <<< n) ≠ 0

/-- `set_nth_bit(x, n) = x | 1 << n`. -/
def set_nth_bit (x n : Nat) : Nat := x ||| (1 <<< n)

/-- `unset_nth_bit(x, n) = x & ~(1 << n)` (on non-negative ints). -/
def unset_nth_bit (x n : Nat) : Nat := Nat.ldiff x (1 <<< n)

theorem is_nth_bit_set_eq_testBit (x n : Nat) :
    is_nth_bit_set x n = x.testBit n := by
  unfold is_nth_bit_set
  rw [Nat.one_shiftLeft, Nat.and_two_pow]
  cases h : x.testBit n <;> simp [h, Nat.pos_iff_ne_zero.symm, Nat.pow_pos]

theorem testBit_set_nth_bit (x n m : Nat) :
    (set_nth_bit x n).testBit m = (x.testBit m || n == m) := by
  unfold set_nth_bit
  rw [Nat.one_shiftLeft, Nat.testBit_lor, Nat.testBit_two_pow]
  cases h : decide (n = m) <;> simp_all

theorem testBit_unset_nth_bit (x n m : Nat) :
    (unset_nth_bit x n).testBit m = (x.testBit m && !(n == m)) := by
  unfold unset_nth_bit
  rw [Nat.one_shiftLeft, Nat.testBit_ldiff, Nat.testBit_two_pow]
  cases h : decide (n = m) <;> simp_all

/-! ## Style-bit state and operations (`TTFontCLI`) -/

/-- The parts of the font state the style-bit methods touch. -/
structure StyleBits where
  fsSelection : Nat
  macStyle : Nat
  os2Version : Nat
  deriving DecidableEq, Repr

namespace StyleBits

/-- `isBold`: `head.macStyle` bit 0 and `OS/2.fsSelection` bit 5. -/
def isBold (s : StyleBits) : Bool :=
  is_nth_bit_set s.macStyle 0 && is_nth_bit_set s.fsSelection 5

/-- `isItalic`: `head.macStyle` bit 1 and `OS/2.fsSelection` bit 0. -/
def isItalic (s : StyleBits) : Bool :=
  is_nth_bit_set s.macStyle 1 && is_nth_bit_set s.fsSelection 0

/-- `isOblique`: `OS/2.fsSelection` bit 9. -/
def isOblique (s : StyleBits) : Bool := is_nth_bit_set s.fsSelection 9

/-- `isRegular`: `OS/2.fsSelection` bit 6. -/
def isRegular (s : StyleBits) : Bool := is_nth_bit_set s.fsSelection 6

/-- `__setBoldBits`. -/
def setBoldBits (s : StyleBits) : StyleBits :=
  { s with fsSelection := set_nth_bit s.fsSelection 5,
           macStyle := set_nth_bit s.macStyle 0 }

/-- `__setItalicBits`. -/
def setItalicBits (s : StyleBits) : StyleBits :=
  { s with fsSelection := set_nth_bit s.fsSelection 0,
           macStyle := set_nth_bit s.macStyle 1 }

/-- `__setRegularBit`. -/
def setRegularBit (s : StyleBits) : StyleBits :=
  { s with fsSelection := set_nth_bit s.fsSelection 6 }

/-- `__clearBoldBits`. -/
def clearBoldBits (s : StyleBits) : StyleBits :=
  { s with fsSelection := unset_nth_bit s.fsSelection 5,
           macStyle := unset_nth_bit s.macStyle 0 }

/-- `__clearItalicBits`. -/
def clearItalicBits (s : StyleBits) : StyleBits :=
  { s with fsSelection := unset_nth_bit s.fsSelection 0,
           macStyle := unset_nth_bit s.macStyle 1 }

/-- `__clearRegularBit`. -/
def clearRegularBit (s : StyleBits) : StyleBits :=
  { s with fsSelection := unset_nth_bit s.fsSelection 6 }

/-- `setBold`. -/
def setBold (s : StyleBits) : StyleBits := clearRegularBit (setBoldBits s)

/-- `setItalic`. -/
def setItalic (s : StyleBits) : StyleBits := clearRegularBit (setItalicBits s)

/-- `setOblique` (bumps the OS/2 version to 4 when it is below 4). -/
def setOblique (s : StyleBits) : StyleBits :=
  let s := if s.os2Version < 4 then { s with os2Version := 4 } else s
  { s with fsSelection := set_nth_bit s.fsSelection 9 }

/-- `unsetBold`. -/
def unsetBold (s : StyleBits) : StyleBits :=
  let s := clearBoldBits s
  if !s.isItalic then setRegularBit s else s

/-- `unsetItalic`. -/
def unsetItalic (s : StyleBits) : StyleBits :=
  let s := clearItalicBits s
  if !s.isBold then setRegularBit s else s

/-- `unsetOblique`. -/
def unsetOblique (s : StyleBits) : StyleBits :=
  { s with fsSelection := unset_nth_bit s.fsSelection 9 }

/-- `setRegular`. -/
def setRegular (s : StyleBits) : StyleBits :=
  clearItalicBits (clearBoldBits (setRegularBit s))

/-- The style-bit invariant: the regular bit is set exactly when the font is
neither bold nor italic. -/
def regularInvariant (s : StyleBits) : Prop :=
  s.isRegular = (!s.isBold && !s.isItalic)

instance (s : StyleBits) : Decidable s.regularInvariant := by
  unfold regularInvariant; infer_instance

end StyleBits

/-- C10: the OS/2 regular bit (fsSelection bit 6) is set iff the font is
neither bold (fsSelection bit 5 and macStyle bit 0) nor italic (fsSelection
bit 0 and macStyle bit 1); every state satisfying this predicate still
satisfies it after each of `setBold`, `setItalic`, `setRegular`,
`unsetBold`, `unsetItalic`. -/
theorem claim_C10_style_ops_preserve_regular_invariant (s : StyleBits)
    (h : s.regularInvariant) :
    (s.setBold).regularInvariant ∧ (s.setItalic).regularInvariant ∧
    (s.setRegular).regularInvariant ∧ (s.unsetBold).regularInvariant ∧
    (s.unsetItalic).regularInvariant := by
  simp only [StyleBits.regularInvariant, StyleBits.isRegular, StyleBits.isBold,
    StyleBits.isItalic, StyleBits.setBold, StyleBits.setItalic,
    StyleBits.setRegular, StyleBits.unsetBold, StyleBits.unsetItalic,
    StyleBits.setBoldBits, StyleBits.setItalicBits, StyleBits.setRegularBit,
    StyleBits.clearBoldBits, StyleBits.clearItalicBits,
    StyleBits.clearRegularBit, is_nth_bit_set_eq_testBit, testBit_set_nth_bit,
    testBit_unset_nth_bit] at h ⊢
  cases h0 : s.macStyle.testBit 0 <;> cases h1 : s.macStyle.testBit 1 <;>
    cases h2 : s.fsSelection.testBit 0 <;> cases h3 : s.fsSelection.testBit 5 <;>
      simp_all only [testBit_set_nth_bit, testBit_unset_nth_bit, Nat.reduceBEq,
        beq_self_eq_true, Bool.or_true, Bool.or_false, Bool.true_or,
        Bool.false_or, Bool.and_true, Bool.and_false, Bool.true_and,
        Bool.false_and, Bool.not_true, Bool.not_false, Bool.not_not,
        if_true, if_false, ite_true, ite_false, Bool.and_self, Bool.or_self,
        Bool.false_eq_true, Bool.true_eq_false, and_self, eq_self_iff_true]

/-- Witness for C10 at a concrete state (regular bit set, bold and italic
clear). -/
theorem claim_C10_witness :
    (⟨64, 0, 4⟩ : StyleBits).regularInvariant ∧
    ((⟨64, 0, 4⟩ : StyleBits).unsetBold).regularInvariant := by
  refine ⟨by decide, ?_⟩
  exact (claim_C10_style_ops_preserve_regular_invariant ⟨64, 0, 4⟩ (by decide)).2.2.2.1

/-! ## Skia path model (`ftCLI/Lib/utils/contours.py`)

A `pathops.Path` iterates as a sequence of `(verb, points)` segments; verbs
are numbered with `MOVETO = 0`.  Point coordinates are Python floats,
modelled as rationals.  `pathops.simplify` itself is external
(skia-pathops) and is passed in as a function returning `none` when it
raises `PathOpsError`. -/

/-- One path segment: a verb code and its points. -/
abbrev SkSegment := Nat × List (ℚ × ℚ)

/-- A skia path: the list of its segments. -/
abbrev SkPath := List SkSegment

/-- `fontTools.misc.roundTools.otRound`: `int(math.floor(v + .5))`. -/
def otRound (q : ℚ) : Int := ⌊q + 1 / 2⌋

/-- `_round_path(path)` with the default rounding function `otRound`:
rebuilds the path with every point coordinate rounded. -/
def round_path (p : SkPath) : SkPath :=
  p.map fun s => (s.1, s.2.map fun pt => ((otRound pt.1 : ℚ), (otRound pt.2 : ℚ)))

/-- `_simplify(path, debugGlyphName)`: first tries `pathops.simplify` on the
path as given; on `PathOpsError` retries once on the rounded path; when the
retry also fails the function raises (modelled as `none`). -/
def simplify (simplifyFn : SkPath → Option SkPath) (path : SkPath) :
    Option SkPath :=
  match simplifyFn path with
  | some result => some result
  | none => simplifyFn (round_path path)

/-- C3: `_simplify` returns the simplification of the original path when the
first attempt succeeds; otherwise it retries exactly once on the
`otRound`-rounded path; it raises only when both attempts fail; and every
successful result is an output of the path-simplification engine (on the
original or on the rounded path). -/
theorem claim_C3_simplify_retry (simplifyFn : SkPath → Option SkPath)
    (path : SkPath) :
    (∀ r, simplifyFn path = some r → simplify simplifyFn path = some r) ∧
    (simplifyFn path = none →
      simplify simplifyFn path = simplifyFn (round_path path)) ∧
    (simplify simplifyFn path = none ↔
      simplifyFn path = none ∧ simplifyFn (round_path path) = none) ∧
    (∀ r, simplify simplifyFn path = some r →
      simplifyFn path = some r ∨ simplifyFn (round_path path) = some r) := by
  unfold simplify
  cases h : simplifyFn path with
  | some r => simp [h]
  | none =>
    cases h2 : simplifyFn (round_path path) with
    | some r => simp [h, h2]
    | none => simp [h, h2]

/-- Witness for C3: a concrete engine whose first attempt succeeds;
`_simplify` returns that result unchanged. -/
theorem claim_C3_witness :
    simplify (fun _ => some [(0, [(7, 7)])]) [(0, [(1, 0)])] =
      some [(0, [(7, 7)])] :=
  (claim_C3_simplify_retry (fun _ => some [(0, [(7, 7)])])
    [(0, [(1, 0)])]).1 _ rfl

/-! ## TrueType glyph model (`ftCLI/Lib/utils/contours.py`) -/

/-- A component of a composite glyph: base glyph name plus its (opaque)
affine transformation as returned by `getComponentInfo()`. -/
structure GlyphComponent where
  glyphName : String
  transform : List ℚ
  deriving DecidableEq, Repr

/-- A decompiled `glyf` glyph: contours of (integer) points for simple
glyphs, components for composites, plus hinting program and bounding box. -/
structure Glyph where
  contours : List (List (Int × Int))
  components : List GlyphComponent
  instructions : List Nat
  xMin : Int
  yMin : Int
  xMax : Int
  yMax : Int
  deriving DecidableEq, Repr

namespace Glyph

/-- `glyph.isComposite()`. -/
def isComposite (g : Glyph) : Bool := g.components ≠ []

/-- `glyph.numberOfContours`: `-1` for composites, the number of contours
otherwise. -/
def numberOfContours (g : Glyph) : Int :=
  if g.isComposite then -1 else g.contours.length

/-- fontTools `glyph.removeHinting()`: drops the hinting program. -/
def removeHinting (g : Glyph) : Glyph := { g with instructions := [] }

end Glyph

/-- fontTools `calcIntBounds` over all points of the contours:
`(xMin, yMin, xMax, yMax)`, and `(0, 0, 0, 0)` when there are no points. -/
def calcIntBounds (contours : List (List (Int × Int))) :
    Int × Int × Int × Int :=
  match contours.flatten with
  | [] => (0, 0, 0, 0)
  | p :: ps =>
    (ps.foldl (fun m q => min m q.1) p.1,
     ps.foldl (fun m q => min m q.2) p.2,
     ps.foldl (fun m q => max m q.1) p.1,
     ps.foldl (fun m q => max m q.2) p.2)

/-- `ttfGlyphFromSkPath(path)`: draws the path through a `TTGlyphPen`
(external, passed in as `pen`, which produces the integer contours and
never components since skia paths have none), then recomputes the bounding
box.  The resulting glyph is unhinted. -/
def ttfGlyphFromSkPath (pen : SkPath → List (List (Int × Int)))
    (path : SkPath) : Glyph :=
  let cs := pen path
  let b := calcIntBounds cs
  ⟨cs, [], [], b.1, b.2.1, b.2.2.1, b.2.2.2⟩

/-- `pathops.Path.contours`: splits the segment list into contours, a new
contour starting at each `MOVETO` (verb 0) segment. -/
def contoursOfPath (p : SkPath) : List SkPath :=
  let step := fun (acc : List SkPath × SkPath) (seg : SkSegment) =>
    if seg.1 = 0 ∧ acc.2 ≠ [] then (acc.1 ++ [acc.2], [seg])
    else (acc.1, acc.2 ++ [seg])
  let r := p.foldl step ([], [])
  if r.2 = [] then r.1 else r.1 ++ [r.2]

/-- `{tuple(c) for c in path.contours} == {tuple(c) for c in path2.contours}`:
the two contour lists are equal as finite sets (order and multiplicity
ignored). -/
def sameContourSet (p q : SkPath) : Bool :=
  let cp := contoursOfPath p
  let cq := contoursOfPath q
  cp.all (· ∈ cq) && cq.all (· ∈ cp)

/-- `itertools.combinations(range n, 2)` on a list: all unordered pairs in
order. -/
def allPairs {α : Type} : List α → List (α × α)
  | [] => []
  | x :: xs => xs.map (fun y => (x, y)) ++ allPairs xs

/-- `componentsOverlap(glyph, glyphSet)` for a composite glyph: some two
distinct components have a non-empty boolean intersection.
`pathops.op(..., INTERSECTION)` truthiness is external (`pathIntersect`),
as is the component-to-path drawing (`compPath`, i.e.
`skPathFromGlyphComponent`).  The `ValueError` branch for non-composites is
unreachable from `removeTTGlyphOverlaps`, whose call is guarded by
`isComposite`. -/
def componentsOverlap (pathIntersect : SkPath → SkPath → Bool)
    (compPath : GlyphComponent → SkPath) (g : Glyph) : Bool :=
  if g.components.length < 2 then false
  else (allPairs g.components).any fun pr =>
    pathIntersect (compPath pr.1) (compPath pr.2)

/-- The two tables `removeTTGlyphOverlaps` touches, as total maps from glyph
name; `hmtx` entries are `(advance width, left side bearing)`. -/
structure TTTables where
  glyf : String → Glyph
  hmtx : String → Int × Int

/-- Pointwise update of a table map. -/
def updateFn {α : Type} (f : String → α) (n : String) (v : α) :
    String → α :=
  fun m => if m = n then v else f m

/-- The fall-through tail of `removeTTGlyphOverlaps`: optionally strip
hinting from the current glyph, return `False`. -/
def removeTTGlyphOverlapsTail (glyphName : String) (t : TTTables)
    (removeHinting : Bool) : TTTables × Bool :=
  let glyf2 :=
    if removeHinting then
      updateFn t.glyf glyphName (t.glyf glyphName).removeHinting
    else t.glyf
  (⟨glyf2, t.hmtx⟩, false)

/-- `removeTTGlyphOverlaps(glyphName, glyphSet, glyfTable, hmtxTable,
removeHinting)`.  External pieces are parameters: `skPathFromGlyph` (drawing
the glyph through the glyph set), `simplifyFn` (`pathops.simplify`,
`none` = `PathOpsError`), `pen` (`TTGlyphPen` contour extraction),
`pathIntersect`/`compPath` (for `componentsOverlap`).  The result is `none`
when `_simplify` raises, otherwise the updated tables and the returned
boolean. -/
def removeTTGlyphOverlaps (skPathFromGlyph : String → SkPath)
    (simplifyFn : SkPath → Option SkPath)
    (pen : SkPath → List (List (Int × Int)))
    (pathIntersect : SkPath → SkPath → Bool)
    (compPath : GlyphComponent → SkPath)
    (glyphName : String) (t : TTTables) (removeHinting : Bool) :
    Option (TTTables × Bool) :=
  let glyph := t.glyf glyphName
  if glyph.numberOfContours > 0 ∨
      (glyph.isComposite ∧ componentsOverlap pathIntersect compPath glyph) then
    let path := skPathFromGlyph glyphName
    match simplify simplifyFn path with
    | none => none
    | some path2 =>
      if ¬ sameContourSet path path2 then
        let g2 := ttfGlyphFromSkPath pen path2
        let wl := t.hmtx glyphName
        let hmtx2 :=
          if wl.2 ≠ g2.xMin then updateFn t.hmtx glyphName (wl.1, g2.xMin)
          else t.hmtx
        some (⟨updateFn t.glyf glyphName g2, hmtx2⟩, true)
      else
        some (removeTTGlyphOverlapsTail glyphName t removeHinting)
  else
    some (removeTTGlyphOverlapsTail glyphName t removeHinting)

/-- C1: whenever `removeTTGlyphOverlaps` replaces a glyph's outline with the
simplified path (returns `True`), the replacement glyph is non-composite,
its bounding box is recomputed from the simplified outline, its hinting
program is empty, the hmtx advance width is unchanged, and the hmtx left
side bearing equals the new glyph's `xMin`. -/
theorem claim_C1_replacement_invariants (skp : String → SkPath)
    (simplifyFn : SkPath → Option SkPath)
    (pen : SkPath → List (List (Int × Int)))
    (pathIntersect : SkPath → SkPath → Bool)
    (compPath : GlyphComponent → SkPath) (glyphName : String) (t : TTTables)
    (rh : Bool) (t' : TTTables)
    (h : removeTTGlyphOverlaps skp simplifyFn pen pathIntersect compPath
        glyphName t rh = some (t', true)) :
    (t'.glyf glyphName).components = [] ∧
    ((t'.glyf glyphName).xMin, (t'.glyf glyphName).yMin,
      (t'.glyf glyphName).xMax, (t'.glyf glyphName).yMax) =
      calcIntBounds (t'.glyf glyphName).contours ∧
    (t'.glyf glyphName).instructions = [] ∧
    (t'.hmtx glyphName).1 = (t.hmtx glyphName).1 ∧
    (t'.hmtx glyphName).2 = (t'.glyf glyphName).xMin := by
  simp only [removeTTGlyphOverlaps] at h
  split at h
  case isFalse =>
    simp only [removeTTGlyphOverlapsTail, Option.some.injEq, Prod.mk.injEq] at h
    exact absurd h.2 (by simp)
  case isTrue hcond =>
    split at h
    next heq => exact absurd h (by simp)
    next path2 heq =>
      split at h
      next hdiff =>
        simp only [Option.some.injEq, Prod.mk.injEq] at h
        obtain ⟨ht', -⟩ := h
        subst ht'
        simp only [updateFn, ttfGlyphFromSkPath, if_pos rfl]
        refine ⟨rfl, rfl, rfl, ?_, ?_⟩ <;>
          · dsimp only
            split
            next hne => simp [updateFn]
            next heq2 => simp_all [updateFn]
      next hdiff =>
        simp only [removeTTGlyphOverlapsTail, Option.some.injEq,
          Prod.mk.injEq] at h
        exact absurd h.2 (by simp)

/-- A concrete simple glyph table for the overlap-removal witnesses. -/
def witGlyf : String → Glyph := fun _ => ⟨[[(0, 0)]], [], [5], 0, 0, 0, 0⟩

/-- Concrete tables: one simple glyph, advance width 500, lsb 10. -/
def witTables : TTTables := ⟨witGlyf, fun _ => (500, 10)⟩

/-- Concrete glyph-set drawing for the witnesses. -/
def witSkp : String → SkPath := fun _ => [(0, [(0, 0)])]

/-- Concrete simplification engine: always returns a different path. -/
def witSimplifyFn : SkPath → Option SkPath := fun _ => some [(0, [(2, 3)])]

/-- Concrete `TTGlyphPen` contour extraction. -/
def witPen : SkPath → List (List (Int × Int)) := fun _ => [[(2, 3)]]

/-- The tables expected after the witness replacement. -/
def witResult : TTTables :=
  ⟨updateFn witTables.glyf "A" (ttfGlyphFromSkPath witPen [(0, [(2, 3)])]),
   updateFn witTables.hmtx "A" (500, 2)⟩

/-- Witness for C1: a concrete replacement run; the invariants hold on the
replaced glyph. -/
theorem claim_C1_witness :
    removeTTGlyphOverlaps witSkp witSimplifyFn witPen (fun _ _ => false)
        (fun _ => []) "A" witTables true = some (witResult, true) ∧
    ((witResult.glyf "A").components = [] ∧
      ((witResult.glyf "A").xMin, (witResult.glyf "A").yMin,
        (witResult.glyf "A").xMax, (witResult.glyf "A").yMax) =
        calcIntBounds (witResult.glyf "A").contours ∧
      (witResult.glyf "A").instructions = [] ∧
      (witResult.hmtx "A").1 = (witTables.hmtx "A").1 ∧
      (witResult.hmtx "A").2 = (witResult.glyf "A").xMin) := by
  have h : removeTTGlyphOverlaps witSkp witSimplifyFn witPen (fun _ _ => false)
      (fun _ => []) "A" witTables true = some (witResult, true) := by rfl
  exact ⟨h, claim_C1_replacement_invariants witSkp witSimplifyFn witPen
    (fun _ _ => false) (fun _ => []) "A" witTables true witResult h⟩

/-- C9: `removeTTGlyphOverlaps` returns `True` exactly when it replaced the
glyph's outline: on `True` the glyf entry is the glyph built from a
simplified path whose contour set differs from the original's; when the
simplified path has the same contour set it returns `False`; and on `False`
the hmtx table is untouched and the glyf entry is unchanged except that
hinting is stripped when `removeHinting` is `True`. -/
theorem claim_C9_false_means_unchanged (skp : String → SkPath)
    (simplifyFn : SkPath → Option SkPath)
    (pen : SkPath → List (List (Int × Int)))
    (pathIntersect : SkPath → SkPath → Bool)
    (compPath : GlyphComponent → SkPath) (glyphName : String) (t : TTTables)
    (rh : Bool) :
    (∀ t' b, removeTTGlyphOverlaps skp simplifyFn pen pathIntersect compPath
        glyphName t rh = some (t', b) →
      (b = true →
        ∃ path2, simplify simplifyFn (skp glyphName) = some path2 ∧
          sameContourSet (skp glyphName) path2 = false ∧
          t'.glyf glyphName = ttfGlyphFromSkPath pen path2) ∧
      (b = false →
        t'.hmtx = t.hmtx ∧
        t'.glyf glyphName =
          (if rh then (t.glyf glyphName).removeHinting
           else t.glyf glyphName) ∧
        ∀ m, m ≠ glyphName → t'.glyf m = t.glyf m)) ∧
    (∀ path2 t' b, simplify simplifyFn (skp glyphName) = some path2 →
      sameContourSet (skp glyphName) path2 = true →
      removeTTGlyphOverlaps skp simplifyFn pen pathIntersect compPath
        glyphName t rh = some (t', b) → b = false) := by
  constructor
  · intro t' b h
    simp only [removeTTGlyphOverlaps] at h
    split at h
    · split at h
      next heq => exact absurd h (by simp)
      next path2 heq =>
        split at h
        next hdiff =>
          simp only [Option.some.injEq, Prod.mk.injEq] at h
          obtain ⟨ht', hb⟩ := h
          subst ht'
          constructor
          · intro _
            refine ⟨path2, heq, ?_, by simp [updateFn]⟩
            cases hsc : sameContourSet (skp glyphName) path2 with
            | false => rfl
            | true => exact absurd hsc hdiff
          · intro hb0; rw [hb0] at hb; exact absurd hb (by simp)
        next hdiff =>
          simp only [removeTTGlyphOverlapsTail, Option.some.injEq,
            Prod.mk.injEq] at h
          obtain ⟨ht', hb⟩ := h
          subst ht'
          constructor
          · intro hb1; rw [hb1] at hb; exact absurd hb (by simp)
          · intro _
            refine ⟨rfl, ?_, ?_⟩
            · cases rh <;> simp [updateFn]
            · intro m hm
              cases rh <;> simp [updateFn, hm]
    · simp only [removeTTGlyphOverlapsTail, Option.some.injEq,
        Prod.mk.injEq] at h
      obtain ⟨ht', hb⟩ := h
      subst ht'
      constructor
      · intro hb1; rw [hb1] at hb; exact absurd hb (by simp)
      · intro _
        refine ⟨rfl, ?_, ?_⟩
        · cases rh <;> simp [updateFn]
        · intro m hm
          cases rh <;> simp [updateFn, hm]
  · intro path2 t' b hsimp hsame h
    simp only [removeTTGlyphOverlaps] at h
    split at h
    · split at h
      next heq => exact absurd h (by simp)
      next path2' heq =>
        rw [heq] at hsimp
        obtain rfl : path2' = path2 := by
          simpa using hsimp
        split at h
        next hdiff => exact absurd hsame hdiff
        next hdiff =>
          simp only [removeTTGlyphOverlapsTail, Option.some.injEq,
            Prod.mk.injEq] at h
          exact h.2.symm
    · simp only [removeTTGlyphOverlapsTail, Option.some.injEq,
        Prod.mk.injEq] at h
      exact h.2.symm

/-- An empty simple glyph with a hinting program, for the C9 witness. -/
def witGlyfB : String → Glyph := fun _ => ⟨[], [], [7], 0, 0, 0, 0⟩

/-- Tables for the C9 witness. -/
def witTablesB : TTTables := ⟨witGlyfB, fun _ => (600, 0)⟩

/-- The tables expected after the C9 witness run (hinting stripped only). -/
def witResultB : TTTables :=
  ⟨updateFn witTablesB.glyf "B" (witGlyfB "B").removeHinting,
   witTablesB.hmtx⟩

/-- Witness for C9: a glyph with no contours is left unchanged except for
hinting removal, and the function returns `False`. -/
theorem claim_C9_witness :
    removeTTGlyphOverlaps witSkp witSimplifyFn witPen (fun _ _ => false)
        (fun _ => []) "B" witTablesB true = some (witResultB, false) ∧
    witResultB.hmtx = witTablesB.hmtx ∧
    witResultB.glyf "B" = (witGlyfB "B").removeHinting ∧
    witResultB.glyf "C" = witTablesB.glyf "C" := by
  have h : removeTTGlyphOverlaps witSkp witSimplifyFn witPen (fun _ _ => false)
      (fun _ => []) "B" witTablesB true = some (witResultB, false) := by rfl
  have c := ((claim_C9_false_means_unchanged witSkp witSimplifyFn witPen
    (fun _ _ => false) (fun _ => []) "B" witTablesB true).1 witResultB false
    h).2 rfl
  exact ⟨h, c.1, c.2.1, c.2.2 "C" (by decide)⟩

/-! ## `fix_true_type_contours` processing order -/

/-- The first component of the Python sort key: `maxComponentDepth` (an
external `getCompositeMaxpValues` result, passed in as `depth`) for
composite glyphs, `0` otherwise. -/
def glyphDepthKey (glyf : String → Glyph) (depth : String → Nat)
    (n : String) : Nat :=
  if (glyf n).isComposite then depth n else 0

/-- Python tuple comparison of the sort keys
`(depth-or-zero, glyph name)` used by `fix_true_type_contours`. -/
def glyphKeyLe (glyf : String → Glyph) (depth : String → Nat)
    (a b : String) : Bool :=
  decide (glyphDepthKey glyf depth a < glyphDepthKey glyf depth b ∨
    (glyphDepthKey glyf depth a = glyphDepthKey glyf depth b ∧ a ≤ b))

/-- The `sorted(glyphNames, key=...)` step of `fix_true_type_contours`
(Python's `sorted` is a stable merge sort on the key order). -/
def sortGlyphNames (glyf : String → Glyph) (depth : String → Nat)
    (names : List String) : List String :=
  names.mergeSort (glyphKeyLe glyf depth)

/-- The processing loop of `fix_true_type_contours`: runs
`removeTTGlyphOverlaps` on each name in order, accumulating the modified
names; a raised error (`none`) propagates. -/
def fixContoursLoop (skp : String → SkPath)
    (simplifyFn : SkPath → Option SkPath)
    (pen : SkPath → List (List (Int × Int)))
    (pathIntersect : SkPath → SkPath → Bool)
    (compPath : GlyphComponent → SkPath) (rh : Bool) :
    List String → TTTables → List String → Option (TTTables × List String)
  | [], t, modified => some (t, modified)
  | n :: rest, t, modified =>
    match removeTTGlyphOverlaps skp simplifyFn pen pathIntersect compPath
        n t rh with
    | none => none
    | some (t', b) =>
      fixContoursLoop skp simplifyFn pen pathIntersect compPath rh rest t'
        (if b then modified ++ [n] else modified)

/-- `fix_true_type_contours(font, glyphNames, removeHinting)`: sorts the
glyph names (all glyphs when `glyphNames` is `None`) by
`(component depth, name)` and processes them in that order.  The
`RemoveOverlapsError` handler is dead code in this file (that exception is
never raised here), so errors propagate. -/
def fix_true_type_contours (skp : String → SkPath)
    (simplifyFn : SkPath → Option SkPath)
    (pen : SkPath → List (List (Int × Int)))
    (pathIntersect : SkPath → SkPath → Bool)
    (compPath : GlyphComponent → SkPath) (depth : String → Nat)
    (glyphOrder : List String) (glyphNames : Option (List String))
    (t : TTTables) (rh : Bool) : Option (TTTables × List String) :=
  fixContoursLoop skp simplifyFn pen pathIntersect compPath rh
    (sortGlyphNames t.glyf depth (glyphNames.getD glyphOrder)) t []

theorem glyphKeyLe_trans (glyf : String → Glyph) (depth : String → Nat) :
    ∀ a b c, glyphKeyLe glyf depth a b → glyphKeyLe glyf depth b c →
      glyphKeyLe glyf depth a c := by
  intro a b c hab hbc
  simp only [glyphKeyLe, decide_eq_true_eq] at *
  rcases hab with h1 | ⟨h1, h1'⟩ <;> rcases hbc with h2 | ⟨h2, h2'⟩
  · exact Or.inl (h1.trans h2)
  · exact Or.inl (h2 ▸ h1)
  · exact Or.inl (h1 ▸ h2)
  · exact Or.inr ⟨h1.trans h2, h1'.trans h2'⟩

theorem glyphKeyLe_total (glyf : String → Glyph) (depth : String → Nat) :
    ∀ a b, glyphKeyLe glyf depth a b || glyphKeyLe glyf depth b a := by
  intro a b
  simp only [glyphKeyLe, Bool.or_eq_true, decide_eq_true_eq]
  rcases lt_trichotomy (glyphDepthKey glyf depth a)
    (glyphDepthKey glyf depth b) with h | h | h
  · exact Or.inl (Or.inl h)
  · rcases le_total a b with h' | h'
    · exact Or.inl (Or.inr ⟨h, h'⟩)
    · exact Or.inr (Or.inr ⟨h.symm, h'⟩)
  · exact Or.inr (Or.inl h)

/-- C2: `fix_true_type_contours` processes glyphs in nondecreasing order of
the `(composite depth, name)` sort key (`sortGlyphNames`): depth keys are
nondecreasing, equal keys are ordered lexicographically by name, no
composite glyph ever precedes a simple glyph, and every base glyph of a
composite in the list is processed before that composite.  The depth
hypotheses are the defining properties of fontTools'
`getCompositeMaxpValues().maxComponentDepth`. -/
theorem claim_C2_processing_order (glyf : String → Glyph)
    (depth : String → Nat) (names : List String)
    (h1 : ∀ n ∈ names, (glyf n).isComposite = true → 1 ≤ depth n)
    (h2 : ∀ n ∈ names, ∀ c ∈ (glyf n).components,
        (glyf c.glyphName).isComposite = true → depth c.glyphName < depth n) :
    (sortGlyphNames glyf depth names).Pairwise (fun a b =>
        glyphDepthKey glyf depth a ≤ glyphDepthKey glyf depth b ∧
        (glyphDepthKey glyf depth a = glyphDepthKey glyf depth b → a ≤ b)) ∧
    (sortGlyphNames glyf depth names).Pairwise (fun a b =>
        (glyf a).isComposite = true → (glyf b).isComposite = true) ∧
    (∀ (i j : Nat) (hi : i < (sortGlyphNames glyf depth names).length)
        (hj : j < (sortGlyphNames glyf depth names).length),
      (glyf ((sortGlyphNames glyf depth names).get ⟨i, hi⟩)).isComposite =
        true →
      ∀ c ∈ (glyf ((sortGlyphNames glyf depth names).get ⟨i, hi⟩)).components,
        (sortGlyphNames glyf depth names).get ⟨j, hj⟩ = c.glyphName →
        j < i) := by
  have hs : (sortGlyphNames glyf depth names).Pairwise
      (fun a b => glyphKeyLe glyf depth a b = true) := by
    exact @List.sorted_mergeSort String (glyphKeyLe glyf depth)
      (glyphKeyLe_trans glyf depth) (glyphKeyLe_total glyf depth) names
  have hmem : ∀ a ∈ sortGlyphNames glyf depth names, a ∈ names := by
    intro a ha
    exact List.mem_mergeSort.mp ha
  refine ⟨?_, ?_, ?_⟩
  · refine hs.imp ?_
    intro a b hab
    simp only [glyphKeyLe, decide_eq_true_eq] at hab
    rcases hab with h | ⟨h, h'⟩
    · exact ⟨le_of_lt h, fun heq => absurd (heq ▸ h) (lt_irrefl _)⟩
    · exact ⟨le_of_eq h, fun _ => h'⟩
  · refine hs.imp_of_mem ?_
    intro a b ha hb hab hca
    simp only [glyphKeyLe, decide_eq_true_eq] at hab
    by_contra hcb
    have hb0 : glyphDepthKey glyf depth b = 0 := by
      simp [glyphDepthKey, hcb]
    have ha1 : 1 ≤ glyphDepthKey glyf depth a := by
      simpa [glyphDepthKey, hca] using h1 a (hmem a ha) hca
    rcases hab with h | ⟨h, -⟩ <;> omega
  · intro i j hi hj hcomp c hc hcj
    simp only [List.get_eq_getElem] at hcomp hc hcj ⊢
    rw [List.pairwise_iff_getElem] at hs
    by_contra hnot
    push_neg at hnot
    set l := sortGlyphNames glyf depth names with hl
    have himem : l[i] ∈ names := hmem _ (List.getElem_mem hi)
    rcases Nat.lt_or_ge i j with hij | hij
    · have hkey := hs i j hi hj hij
      simp only [glyphKeyLe, decide_eq_true_eq] at hkey
      have hdi : glyphDepthKey glyf depth l[i] = depth l[i] := by
        simp [glyphDepthKey, hcomp]
      have h1i : 1 ≤ depth l[i] := h1 _ himem hcomp
      cases hcc : (glyf c.glyphName).isComposite with
      | true =>
        have hlt := h2 _ himem c hc hcc
        have hdj : glyphDepthKey glyf depth l[j] = depth c.glyphName := by
          rw [hcj]; simp [glyphDepthKey, hcc]
        rcases hkey with h | ⟨h, -⟩ <;> omega
      | false =>
        have hdj : glyphDepthKey glyf depth l[j] = 0 := by
          rw [hcj]; simp [glyphDepthKey, hcc]
        rcases hkey with h | ⟨h, -⟩ <;> omega
    · have hji : j ≤ i := hij
      have hij' : i = j := by omega
      subst hij'
      have hii : l[i] = c.glyphName := hcj
      have hcc : (glyf c.glyphName).isComposite = true := by
        rw [← hii]; exact hcomp
      have hlt := h2 _ himem c hc hcc
      rw [← hii] at hlt
      omega

/-- A three-glyph table for the C2 witness: `C` is a composite over `A`;
`A` and `B` are simple. -/
def witGlyfC : String → Glyph := fun n =>
  if n = "C" then ⟨[], [⟨"A", []⟩], [], 0, 0, 0, 0⟩
  else ⟨[[(0, 0)]], [], [], 0, 0, 0, 0⟩

/-- Component depths matching `witGlyfC`. -/
def witDepthC : String → Nat := fun n => if n = "C" then 1 else 0

/-- Witness for C2 at a concrete glyph set (names given out of order). -/
theorem claim_C2_witness :
    (∀ n ∈ ["B", "A", "C"], (witGlyfC n).isComposite = true →
      1 ≤ witDepthC n) ∧
    (∀ n ∈ ["B", "A", "C"], ∀ c ∈ (witGlyfC n).components,
      (witGlyfC c.glyphName).isComposite = true →
      witDepthC c.glyphName < witDepthC n) ∧
    (sortGlyphNames witGlyfC witDepthC ["B", "A", "C"]).Pairwise (fun a b =>
      (witGlyfC a).isComposite = true → (witGlyfC b).isComposite = true) :=
  ⟨by decide, by decide,
   (claim_C2_processing_order witGlyfC witDepthC ["B", "A", "C"] (by decide)
     (by decide)).2.1⟩

/-! ## `modifyLinegapPercent` (`ftcli/Lib/TTFontCLI.py`) -/

/-- The vertical-metrics fields `modifyLinegapPercent` reads and writes. -/
structure VertMetrics where
  sTypoAscender : Int
  sTypoDescender : Int
  sTypoLineGap : Int
  hheaAscent : Int
  hheaDescent : Int
  hheaLineGap : Int
  usWinAscent : Int
  usWinDescent : Int
  unitsPerEm : Int
  deriving DecidableEq, Repr

/-- `modifyLinegapPercent(percent)`.  The Python float expressions
(`1.0 * int(percent) / 100`, `0.5 * ...`) are modelled as exact rationals;
`int(...)` is truncation toward zero (`pyInt`).  The `except` handler
(`sys.exit(1)`) is unreachable in the pure model. -/
def modifyLinegapPercent (m : VertMetrics) (percent : Int) : VertMetrics :=
  let os2_typo_ascender := m.sTypoAscender
  let os2_typo_descender := m.sTypoDescender
  let os2_typo_linegap := m.sTypoLineGap
  let hhea_ascent := m.hheaAscent
  let hhea_descent := m.hheaDescent
  let units_per_em := m.unitsPerEm
  let os2_typo_ascdesc_delta := os2_typo_ascender + -os2_typo_descender
  let hhea_ascdesc_delta := hhea_ascent + -hhea_descent
  let factor : ℚ := 1 * (percent : ℚ) / 100
  let line_spacing_units := pyInt (factor * (units_per_em : ℚ))
  let total_height := line_spacing_units + units_per_em
  let delta_height := total_height - hhea_ascdesc_delta
  let upper_lower_add_units := pyInt ((1 / 2 : ℚ) * (delta_height : ℚ))
  let hhea_linegap : Int := 0
  if os2_typo_linegap = 0 ∧ os2_typo_ascdesc_delta > units_per_em then
    -- Google metrics approach
    let os2_typo_ascender := os2_typo_ascender + upper_lower_add_units
    let os2_typo_descender := os2_typo_descender - upper_lower_add_units
    let hhea_ascent := hhea_ascent + upper_lower_add_units
    let hhea_descent := hhea_descent - upper_lower_add_units
    let os2_win_ascent := hhea_ascent
    let os2_win_descent := -hhea_descent
    { m with sTypoAscender := os2_typo_ascender,
             sTypoDescender := os2_typo_descender,
             sTypoLineGap := os2_typo_linegap,
             usWinAscent := os2_win_ascent,
             usWinDescent := os2_win_descent,
             hheaAscent := hhea_ascent,
             hheaDescent := hhea_descent,
             hheaLineGap := hhea_linegap }
  else if os2_typo_linegap = 0 ∧ os2_typo_ascdesc_delta = units_per_em then
    -- Adobe metrics approach
    let hhea_ascent := hhea_ascent + upper_lower_add_units
    let hhea_descent := hhea_descent - upper_lower_add_units
    let os2_win_ascent := hhea_ascent
    let os2_win_descent := -hhea_descent
    { m with sTypoAscender := os2_typo_ascender,
             sTypoDescender := os2_typo_descender,
             sTypoLineGap := os2_typo_linegap,
             usWinAscent := os2_win_ascent,
             usWinDescent := os2_win_descent,
             hheaAscent := hhea_ascent,
             hheaDescent := hhea_descent,
             hheaLineGap := hhea_linegap }
  else
    let os2_typo_linegap := line_spacing_units
    let hhea_ascent :=
      pyInt ((os2_typo_ascender : ℚ) + (1 / 2 : ℚ) * (os2_typo_linegap : ℚ))
    let hhea_descent := -(total_height - hhea_ascent)
    let os2_win_ascent := hhea_ascent
    let os2_win_descent := -hhea_descent
    { m with sTypoAscender := os2_typo_ascender,
             sTypoDescender := os2_typo_descender,
             sTypoLineGap := os2_typo_linegap,
             usWinAscent := os2_win_ascent,
             usWinDescent := os2_win_descent,
             hheaAscent := hhea_ascent,
             hheaDescent := hhea_descent,
             hheaLineGap := hhea_linegap }

theorem pyInt_intCast (n : Int) : pyInt (n : ℚ) = n := by
  simp [pyInt, Rat.num_intCast, Rat.den_intCast]

/-- C7 corrected: `modifyLinegapPercent` always zeroes `hhea.lineGap` and
sets `usWinAscent`/`usWinDescent` to the new `hhea.ascent`/`-hhea.descent`;
the resulting span `hhea.ascent - hhea.descent` equals
`unitsPerEm + int(percent/100 * unitsPerEm)` in the fallback branch, while
in the Google/Adobe branches (`sTypoLineGap = 0` and typo delta `>`/`=`
`unitsPerEm`) it equals the old span plus `2 * int((total - old span)/2)`,
which only matches the claimed total when `total - old span` is even. -/
theorem claim_C7_linegap_amended (m : VertMetrics) (percent : Int) :
    (modifyLinegapPercent m percent).hheaLineGap = 0 ∧
    (modifyLinegapPercent m percent).usWinAscent =
      (modifyLinegapPercent m percent).hheaAscent ∧
    (modifyLinegapPercent m percent).usWinDescent =
      -(modifyLinegapPercent m percent).hheaDescent ∧
    (modifyLinegapPercent m percent).hheaAscent -
        (modifyLinegapPercent m percent).hheaDescent =
      (if m.sTypoLineGap = 0 ∧
            m.sTypoAscender + -m.sTypoDescender > m.unitsPerEm ∨
          m.sTypoLineGap = 0 ∧
            m.sTypoAscender + -m.sTypoDescender = m.unitsPerEm then
        (m.hheaAscent + -m.hheaDescent) +
          2 * pyInt ((1 / 2 : ℚ) *
            (((pyInt (1 * (percent : ℚ) / 100 * (m.unitsPerEm : ℚ)) +
                m.unitsPerEm) - (m.hheaAscent + -m.hheaDescent) : Int) : ℚ))
       else
        pyInt (1 * (percent : ℚ) / 100 * (m.unitsPerEm : ℚ)) +
          m.unitsPerEm) ∧
    (((pyInt (1 * (percent : ℚ) / 100 * (m.unitsPerEm : ℚ)) + m.unitsPerEm) -
          (m.hheaAscent + -m.hheaDescent)) % 2 = 0 →
      (modifyLinegapPercent m percent).hheaAscent -
          (modifyLinegapPercent m percent).hheaDescent =
        pyInt (1 * (percent : ℚ) / 100 * (m.unitsPerEm : ℚ)) +
          m.unitsPerEm) := by
  simp only [modifyLinegapPercent]
  set lsu := pyInt (1 * (percent : ℚ) / 100 * (m.unitsPerEm : ℚ)) with hlsu
  set dh := lsu + m.unitsPerEm - (m.hheaAscent + -m.hheaDescent) with hdh
  have hparity : dh % 2 = 0 → 2 * pyInt ((1 / 2 : ℚ) * (dh : ℚ)) = dh := by
    intro hev
    obtain ⟨k, hk⟩ : ∃ k, dh = 2 * k := ⟨dh / 2, by omega⟩
    have hcast : ((1 : ℚ) / 2) * ((dh : Int) : ℚ) = ((k : Int) : ℚ) := by
      rw [hk]; push_cast; ring
    rw [hcast, pyInt_intCast]; omega
  split
  next hg =>
    refine ⟨rfl, rfl, rfl, ?_, ?_⟩
    · rw [if_pos (Or.inl hg)]
      show m.hheaAscent + pyInt ((1 / 2 : ℚ) * (dh : ℚ)) -
          (m.hheaDescent - pyInt ((1 / 2 : ℚ) * (dh : ℚ))) = _
      ring
    · intro hev
      have h2 := hparity hev
      show m.hheaAscent + pyInt ((1 / 2 : ℚ) * (dh : ℚ)) -
          (m.hheaDescent - pyInt ((1 / 2 : ℚ) * (dh : ℚ))) = lsu + m.unitsPerEm
      omega
  next hng =>
    split
    next ha =>
      refine ⟨rfl, rfl, rfl, ?_, ?_⟩
      · rw [if_pos (Or.inr ha)]
        show m.hheaAscent + pyInt ((1 / 2 : ℚ) * (dh : ℚ)) -
            (m.hheaDescent - pyInt ((1 / 2 : ℚ) * (dh : ℚ))) = _
        ring
      · intro hev
        have h2 := hparity hev
        show m.hheaAscent + pyInt ((1 / 2 : ℚ) * (dh : ℚ)) -
            (m.hheaDescent - pyInt ((1 / 2 : ℚ) * (dh : ℚ))) =
          lsu + m.unitsPerEm
        omega
    next hna =>
      refine ⟨rfl, rfl, rfl, ?_, ?_⟩
      · rw [if_neg (by tauto)]
        show pyInt ((m.sTypoAscender : ℚ) + (1 / 2 : ℚ) * (lsu : ℚ)) -
            -(lsu + m.unitsPerEm -
              pyInt ((m.sTypoAscender : ℚ) + (1 / 2 : ℚ) * (lsu : ℚ))) = _
        ring
      · intro hev
        show pyInt ((m.sTypoAscender : ℚ) + (1 / 2 : ℚ) * (lsu : ℚ)) -
            -(lsu + m.unitsPerEm -
              pyInt ((m.sTypoAscender : ℚ) + (1 / 2 : ℚ) * (lsu : ℚ))) =
          lsu + m.unitsPerEm
        ring

/-- Counterexample for C7 as stated: with `unitsPerEm = 1000`,
`sTypoAscender = 900`, `sTypoDescender = -200`, `sTypoLineGap = 0` (Google
branch), `hhea.ascent = 800`, `hhea.descent = -199` and `percent = 10`, the
run completes but the resulting span is `1099`, not
`unitsPerEm + int(percent/100 * unitsPerEm) = 1100`. -/
theorem claim_C7_counterexample :
    (modifyLinegapPercent ⟨900, -200, 0, 800, -199, 90, 0, 0, 1000⟩
        10).hheaAscent -
      (modifyLinegapPercent ⟨900, -200, 0, 800, -199, 90, 0, 0, 1000⟩
        10).hheaDescent ≠
    (1000 : Int) + pyInt (1 * (10 : ℚ) / 100 * (1000 : ℚ)) := by
  norm_num [modifyLinegapPercent, pyInt]
  decide

/-- Witness for C7 at a concrete font state taking the fallback branch
(`sTypoLineGap ≠ 0`), where the span equals the claimed total exactly. -/
theorem claim_C7_witness :
    (modifyLinegapPercent ⟨750, -250, 200, 750, -250, 200, 0, 0, 1000⟩
        20).hheaAscent -
      (modifyLinegapPercent ⟨750, -250, 200, 750, -250, 200, 0, 0, 1000⟩
        20).hheaDescent =
    pyInt (1 * (20 : ℚ) / 100 * (1000 : ℚ)) + 1000 :=
  (claim_C7_linegap_amended ⟨750, -250, 200, 750, -250, 200, 0, 0, 1000⟩
    20).2.2.2.2 (by norm_num [pyInt])

/-! ## Name-table command save decision (`foundryToolsCLI/CLI/ftcli_name.py`) -/

/-- What a name-table subcommand does with a font after mutating its name
table. -/
inductive SaveOutcome where
  | saved
  | notChanged
  deriving DecidableEq, Repr

/-- The shared per-font body of the `name` subcommands (`set-name`,
`del-names`, `find-replace`, `del-mac-names`, `append`): keep a deep copy
of the name table, apply the command's mutation in place, then save to an
output file when the compiled bytes of the copy and of the mutated table
differ, and emit a file-not-changed message (saving nothing) otherwise.
`compile` (fontTools) and the per-command mutation (`TableName` methods,
defined outside the files under verification) are abstract parameters. -/
def nameCommandOutcome {α β : Type} [DecidableEq β] (compile : α → β)
    (mutate : α → α) (t : α) : SaveOutcome :=
  let copy := t
  let mutated := mutate t
  if compile copy ≠ compile mutated then SaveOutcome.saved
  else SaveOutcome.notChanged

/-- C8: for every name-table command run, an output file is written iff
compiling the mutated name table yields different bytes than compiling the
pre-mutation copy; with equal bytes the command only reports that the file
did not change. -/
theorem claim_C8_save_iff_bytes_differ {α β : Type} [DecidableEq β]
    (compile : α → β) (mutate : α → α) (t : α) :
    (nameCommandOutcome compile mutate t = SaveOutcome.saved ↔
      compile (mutate t) ≠ compile t) ∧
    (nameCommandOutcome compile mutate t = SaveOutcome.notChanged ↔
      compile (mutate t) = compile t) := by
  simp only [nameCommandOutcome]
  split
  next h => simp_all [eq_comm]
  next h => simp_all [eq_comm]

/-- Witness for C8: a mutation that changes the compiled bytes leads to a
save; the identity mutation does not. -/
theorem claim_C8_witness :
    nameCommandOutcome (id : Nat → Nat) Nat.succ 0 = SaveOutcome.saved ∧
    nameCommandOutcome (id : Nat → Nat) (fun n => n) 0 =
      SaveOutcome.notChanged :=
  ⟨(claim_C8_save_iff_bytes_differ id Nat.succ 0).1.mpr (by decide),
   (claim_C8_save_iff_bytes_differ id (fun n => n) 0).2.mpr rfl⟩

/-! ## Name table model (`ftcli/Lib/TTFontCLI.py`)

A `name` table is its list of records.  fontTools primitives
(`removeNames`, `getName`, `addMultilingualName`) are modelled from their
documented behaviour for the arguments this repository passes; the
language-code tables (`_WINDOWS_LANGUAGE_CODES`, `_MAC_LANGUAGE_CODES`,
`_MAC_LANGUAGE_TO_SCRIPT`) are abstract lookup functions (`.get` returns
`none` for a missing key). -/

/-- One name-table record. -/
structure NameRecord where
  nameID : Nat
  platformID : Nat
  platEncID : Nat
  langID : Nat
  string : String
  deriving DecidableEq, Repr

/-- A name table: its record list, in storage order. -/
abbrev NameTable := List NameRecord

/-- The three fontTools language-code tables, as lookup functions. -/
structure LangCodes where
  win : String → Option Nat
  mac : String → Option Nat
  macScript : Nat → Option Nat

/-- The `'en'` entries of the fontTools language-code tables, the only
language `recalcNames` ever passes: Windows `0x409`, Macintosh language `0`
(English) written with script `0` (Roman). -/
def enLangCodes : LangCodes :=
  ⟨fun l => if l = "en" then some 0x409 else none,
   fun l => if l = "en" then some 0 else none,
   fun c => if c = 0 then some 0 else none⟩

/-- fontTools `name.removeNames(nameID, platformID, platEncID, langID)`:
drops every record matching all four arguments.  A `None` argument
(produced by a failed language-code lookup) matches no stored integer. -/
def removeNames (t : NameTable) (nameID platformID : Nat)
    (platEncID langID : Option Nat) : NameTable :=
  t.filter fun r => !(r.nameID == nameID && r.platformID == platformID &&
    some r.platEncID == platEncID && some r.langID == langID)

/-- fontTools `name.getName(nameID, platformID, platEncID, langID)`: the
first record matching all four arguments. -/
def getName (t : NameTable) (nameID platformID platEncID langID : Nat) :
    Option NameRecord :=
  t.find? fun r => r.nameID == nameID && r.platformID == platformID &&
    r.platEncID == platEncID && r.langID == langID

/-- Python `str(self['name'].getName(...))`: the record's string, or the
string `"None"` when there is no such record. -/
def getNameStr (t : NameTable) (nameID platformID platEncID langID : Nat) :
    String :=
  pyStrOfOption ((getName t nameID platformID platEncID langID).map
    NameRecord.string)

/-- `delMultilingualName(nameID, language, windows, mac)`: with
`language='ALL'` every record with the nameID is removed; otherwise the
Windows record keyed `(nameID, 3, 1, winCode(language))` and/or the
Macintosh record keyed `(nameID, 1, macScript, macLang)` are removed, a
failed `.get` lookup yielding a `None` key that matches nothing. -/
def delMultilingualName (lc : LangCodes) (t : NameTable) (nameID : Nat)
    (language : String) (windows mac : Bool) : NameTable :=
  if language = "ALL" then
    t.filter fun r => !(r.nameID == nameID)
  else
    let t1 :=
      if windows then removeNames t nameID 3 (some 1) (lc.win (pyLower language))
      else t
    if mac then
      let macLang := lc.mac (pyLower language)
      let macScript :=
        match macLang with
        | some l => lc.macScript l
        | none => none
      removeNames t1 nameID 1 macScript macLang
    else t1

/-- The Macintosh record fontTools `_makeMacName` builds for a language:
`(nameID, 1, macScript(macLang), macLang)`, or no record when either
language-code lookup fails. -/
def macNameRecord (lc : LangCodes) (nameID : Nat)
    (language string : String) : NameTable :=
  match lc.mac (pyLower language) with
  | some macLang =>
    match lc.macScript macLang with
    | some macScript => [⟨nameID, 1, macScript, macLang, string⟩]
    | none => []
  | none => []

/-- Modelled from fontTools
`addMultilingualName({language: string}, ttFont, nameID, windows, mac)` for
the single-language dicts this repository passes.  With `windows=True` it
appends the Windows record `(nameID, 3, 1, winCode(language))` when the
language has a Windows code; when it cannot make a Windows name it falls
back to appending the Macintosh record instead, even when `mac=False`
("We cannot not make a Windows name: make sure we add a Mac name as a
fallback").  With `mac=True` it then appends the Macintosh record
`(nameID, 1, macScript, macLang)` when the language has Macintosh
codes. -/
def addMultilingualName (lc : LangCodes) (t : NameTable) (nameID : Nat)
    (language string : String) (windows mac : Bool) : NameTable :=
  let winRecs : NameTable :=
    if windows then
      match lc.win (pyLower language) with
      | some code => [⟨nameID, 3, 1, code, string⟩]
      | none => macNameRecord lc nameID language string
    else []
  let macRecs : NameTable :=
    if mac then macNameRecord lc nameID language string else []
  t ++ winRecs ++ macRecs

/-- `setMultilingualName(nameID, language, string, windows, mac)`: delete
the existing record for the nameID and language on each targeted platform,
then add the new record(s). -/
def setMultilingualName (lc : LangCodes) (t : NameTable) (nameID : Nat)
    (language string : String) (windows mac : Bool) : NameTable :=
  let t :=
    if windows then delMultilingualName lc t nameID language true false else t
  let t :=
    if mac then delMultilingualName lc t nameID language false true else t
  addMultilingualName lc t nameID language string windows mac

/-- The keep-predicate of the Windows-side deletion of
`delMultilingualName`. -/
def keepW (lc : LangCodes) (nameID : Nat) (language : String) :
    NameRecord → Bool :=
  fun r =>
    if language = "ALL" then !(r.nameID == nameID)
    else !(r.nameID == nameID && r.platformID == 3 &&
      some r.platEncID == some 1 && some r.langID == lc.win (pyLower language))

/-- The keep-predicate of the Macintosh-side deletion of
`delMultilingualName`. -/
def keepM (lc : LangCodes) (nameID : Nat) (language : String) :
    NameRecord → Bool :=
  fun r =>
    if language = "ALL" then !(r.nameID == nameID)
    else !(r.nameID == nameID && r.platformID == 1 &&
      some r.platEncID ==
        (match lc.mac (pyLower language) with
         | some l => lc.macScript l
         | none => none) &&
      some r.langID == lc.mac (pyLower language))

theorem delW_eq_filter (lc : LangCodes) (t : NameTable) (nameID : Nat)
    (language : String) :
    delMultilingualName lc t nameID language true false =
      t.filter (keepW lc nameID language) := by
  by_cases hall : language = "ALL"
  · rw [delMultilingualName, if_pos hall]
    exact List.filter_congr fun r _ => by simp [keepW, hall]
  · rw [delMultilingualName, if_neg hall]
    show removeNames t nameID 3 (some 1) (lc.win (pyLower language)) =
      t.filter (keepW lc nameID language)
    rw [removeNames]
    exact List.filter_congr fun r _ => by simp [keepW, hall]

theorem delM_eq_filter (lc : LangCodes) (t : NameTable) (nameID : Nat)
    (language : String) :
    delMultilingualName lc t nameID language false true =
      t.filter (keepM lc nameID language) := by
  by_cases hall : language = "ALL"
  · rw [delMultilingualName, if_pos hall]
    exact List.filter_congr fun r _ => by simp [keepM, hall]
  · rw [delMultilingualName, if_neg hall]
    show removeNames t nameID 1
        (match lc.mac (pyLower language) with
         | some l => lc.macScript l
         | none => none) (lc.mac (pyLower language)) =
      t.filter (keepM lc nameID language)
    rw [removeNames]
    exact List.filter_congr fun r _ => by simp [keepM, hall]

theorem filter_restore1 {α : Type} (p : α → Bool) (t recs : List α)
    (h : recs.filter p = []) :
    (t.filter p ++ recs).filter p = t.filter p := by
  have hself : (t.filter p).filter p = t.filter p :=
    List.filter_eq_self.mpr fun a ha => (List.mem_filter.mp ha).2
  rw [List.filter_append, h, List.append_nil, hself]

theorem filter_restore2 {α : Type} (p q : α → Bool) (t recs : List α)
    (hrecs : (recs.filter p).filter q = []) :
    (((t.filter p).filter q ++ recs).filter p).filter q =
      (t.filter p).filter q := by
  have hu1 : ((t.filter p).filter q).filter p = (t.filter p).filter q :=
    List.filter_eq_self.mpr fun a ha =>
      (List.mem_filter.mp (List.mem_filter.mp ha).1).2
  have hu2 : ((t.filter p).filter q).filter q = (t.filter p).filter q :=
    List.filter_eq_self.mpr fun a ha => (List.mem_filter.mp ha).2
  rw [List.filter_append, hu1, List.filter_append, hu2, hrecs,
    List.append_nil]

/-- A language with Macintosh codes but no Windows code, in the shape of
the fontTools tables for `'eo'` (Esperanto): no `_WINDOWS_LANGUAGE_CODES`
entry, `_MAC_LANGUAGE_CODES['eo'] = 94`,
`_MAC_LANGUAGE_TO_SCRIPT[94] = 0`. -/
def macOnlyLangCodes : LangCodes :=
  ⟨fun _ => none,
   fun l => if l = "eo" then some 94 else none,
   fun c => if c = 94 then some 0 else none⟩

/-- C6 counterexample: for a language with Macintosh codes but no Windows
code (such as `'eo'`), `setMultilingualName` with `windows=True, mac=False`
is not idempotent: the Windows-side delete (`removeNames(nameID, 3, 1,
None)`) removes nothing, while `addMultilingualName` cannot make a Windows
name and falls back to appending the Macintosh record, so every run adds
one more copy of it. -/
theorem claim_C6_counterexample :
    setMultilingualName macOnlyLangCodes
        (setMultilingualName macOnlyLangCodes [] 4 "eo" "Testo" true false)
        4 "eo" "Testo" true false ≠
      setMultilingualName macOnlyLangCodes [] 4 "eo" "Testo" true false := by
  decide

/-- C6 (amended): `setMultilingualName` first deletes the existing records
for the nameID and language on each targeted platform, then adds the new
records, and running it twice with identical arguments leaves the name
table exactly as one run does — except in the Windows-to-Mac fallback
case: `windows=True, mac=False` with a language (other than `'ALL'`) that
has no Windows code but does yield a Macintosh record, where each run
appends a fallback Macintosh record the Windows-side delete never
removes. -/
theorem claim_C6_setMultilingualName_idempotent_amended (lc : LangCodes)
    (t : NameTable) (nameID : Nat) (language string : String)
    (windows mac : Bool)
    (h : windows = true → mac = false → language ≠ "ALL" →
      lc.win (pyLower language) = none →
      macNameRecord lc nameID language string = []) :
    setMultilingualName lc
        (setMultilingualName lc t nameID language string windows mac)
        nameID language string windows mac =
      setMultilingualName lc t nameID language string windows mac := by
  cases windows <;> cases mac
  · -- windows = false, mac = false
    show addMultilingualName lc
        (addMultilingualName lc t nameID language string false false)
        nameID language string false false = _
    simp [setMultilingualName, addMultilingualName]
  · -- windows = false, mac = true
    have hM : (macNameRecord lc nameID language string).filter
        (keepM lc nameID language) = [] := by
      unfold macNameRecord
      cases hmv : lc.mac (pyLower language) with
      | none => simp
      | some macLang =>
        cases hsv : lc.macScript macLang with
        | none => simp [hsv]
        | some macScript =>
          by_cases hall : language = "ALL" <;> simp [keepM, hall, hmv, hsv]
    have hset : ∀ u, setMultilingualName lc u nameID language string
        false true =
        u.filter (keepM lc nameID language) ++ [] ++
          macNameRecord lc nameID language string := by
      intro u
      show addMultilingualName lc
          (delMultilingualName lc u nameID language false true)
          nameID language string false true = _
      rw [delM_eq_filter]
      rfl
    rw [hset t, hset _]
    simp only [List.append_nil]
    rw [filter_restore1 _ _ _ hM]
  · -- windows = true, mac = false: the hypothesis rules out the fallback
    have hW : (match lc.win (pyLower language) with
        | some code => ([⟨nameID, 3, 1, code, string⟩] : NameTable)
        | none => macNameRecord lc nameID language string).filter
          (keepW lc nameID language) = [] := by
      cases hwv : lc.win (pyLower language) with
      | some code =>
        by_cases hall : language = "ALL" <;> simp [keepW, hall, hwv]
      | none =>
        by_cases hall : language = "ALL"
        · unfold macNameRecord
          cases hmv : lc.mac (pyLower language) with
          | none => simp
          | some macLang =>
            cases hsv : lc.macScript macLang with
            | none => simp [hsv]
            | some macScript => simp [keepW, hall, hmv, hsv]
        · rw [h rfl rfl hall hwv]
          simp
    have hset : ∀ u, setMultilingualName lc u nameID language string
        true false =
        u.filter (keepW lc nameID language) ++
          (match lc.win (pyLower language) with
           | some code => ([⟨nameID, 3, 1, code, string⟩] : NameTable)
           | none => macNameRecord lc nameID language string) ++ [] := by
      intro u
      show addMultilingualName lc
          (delMultilingualName lc u nameID language true false)
          nameID language string true false = _
      rw [delW_eq_filter]
      rfl
    rw [hset t, hset _]
    simp only [List.append_nil]
    rw [filter_restore1 _ _ _ hW]
  · -- windows = true, mac = true: the Macintosh-side delete also removes
    -- any fallback record, so idempotence needs no side condition
    have hMM : ((macNameRecord lc nameID language string).filter
        (keepW lc nameID language)).filter (keepM lc nameID language)
          = [] := by
      unfold macNameRecord
      cases hmv : lc.mac (pyLower language) with
      | none => simp
      | some macLang =>
        cases hsv : lc.macScript macLang with
        | none => simp [hsv]
        | some macScript =>
          by_cases hall : language = "ALL" <;>
            simp [keepW, keepM, hall, hmv, hsv]
    have hWM : (((match lc.win (pyLower language) with
        | some code => ([⟨nameID, 3, 1, code, string⟩] : NameTable)
        | none => macNameRecord lc nameID language string) ++
          macNameRecord lc nameID language string).filter
            (keepW lc nameID language)).filter
          (keepM lc nameID language) = [] := by
      rw [List.filter_append, List.filter_append, hMM, List.append_nil]
      cases hwv : lc.win (pyLower language) with
      | some code =>
        by_cases hall : language = "ALL" <;> simp [keepW, hall, hwv]
      | none => exact hMM
    have hset : ∀ u, setMultilingualName lc u nameID language string
        true true =
        (u.filter (keepW lc nameID language)).filter
            (keepM lc nameID language) ++
          ((match lc.win (pyLower language) with
            | some code => ([⟨nameID, 3, 1, code, string⟩] : NameTable)
            | none => macNameRecord lc nameID language string) ++
           macNameRecord lc nameID language string) := by
      intro u
      show addMultilingualName lc
          (delMultilingualName lc
            (delMultilingualName lc u nameID language true false)
            nameID language false true)
          nameID language string true true = _
      rw [delW_eq_filter, delM_eq_filter]
      show _ ++ _ ++ _ = _
      rw [List.append_assoc]
      simp
    rw [hset t, hset _]
    rw [filter_restore2 _ _ _ _ hWM]

/-- Witness for the amended C6, in the interesting fallback shape: for
`'eo'` with `windows=True, mac=True` the run appends the fallback Macintosh
record and the regular Macintosh record, yet a second run deletes both
copies and is idempotent. -/
theorem claim_C6_witness :
    ((true : Bool) = true → (true : Bool) = false →
      ("eo" : String) ≠ "ALL" →
      macOnlyLangCodes.win (pyLower "eo") = none →
      macNameRecord macOnlyLangCodes 4 "eo" "Testo" = []) ∧
    setMultilingualName macOnlyLangCodes
        (setMultilingualName macOnlyLangCodes [] 4 "eo" "Testo" true true)
        4 "eo" "Testo" true true =
      setMultilingualName macOnlyLangCodes [] 4 "eo" "Testo" true true :=
  ⟨by decide,
   claim_C6_setMultilingualName_idempotent_amended macOnlyLangCodes [] 4
     "eo" "Testo" true true (by decide)⟩

/-! ## `recalcNames` (`ftcli/Lib/TTFontCLI.py`) -/

/-- One row of the style-matrix CSV, after the `int`/`bool`/`str`
conversions `recalcNames` applies to `font_data`. -/
structure FontData where
  is_italic : Bool
  is_oblique : Bool
  uswidthclass : Int
  wdt : String
  width : String
  usweightclass : Int
  wgt : String
  weight : String
  slp : String
  slope : String
  family_name : String
  deriving DecidableEq, Repr

/-- The keyword options of `recalcNames` (after the `None → []`
normalisation at the top of the method).  CFF fields are not modelled. -/
structure RecalcOptions where
  namerecords_to_ignore : List Nat
  shorten_weight : List Nat
  shorten_width : List Nat
  shorten_slope : List Nat
  linked_styles : List Int
  isSuperFamily : Bool
  alt_uid : Bool
  regular_italic : Bool
  keep_regular : Bool
  old_full_font_name : Bool
  oblique_not_italic : Bool
  deriving DecidableEq, Repr

/-- The font state `recalcNames` reads and writes: the name table, the
style bits, the OS/2 classes, and the strings it reads from other tables
(`achVendID`; the `str(round(fontRevision, 3)).ljust(5, '0')` float
formatting and the `timestampToString` year are abstracted as
pre-formatted strings). -/
structure FontState where
  name : NameTable
  bits : StyleBits
  usWeightClass : Int
  usWidthClass : Int
  achVendID : String
  fontRevisionStr : String
  createdYearStr : String
  deriving Repr

/-- The bit manipulations at the top of `recalcNames` (`setRegular`,
`setItalic`, `setOblique`/`unsetOblique`, `unsetItalic`), returning the new
bits and the possibly cleared `is_italic` flag. -/
def applyStyleBitsPre (fd : FontData) (opts : RecalcOptions)
    (s : StyleBits) : StyleBits × Bool :=
  let is_italic := fd.is_italic
  let s := s.setRegular
  let s := if is_italic then s.setItalic else s
  if fd.is_oblique then
    let s := s.setOblique
    let s := s.setItalic
    if opts.oblique_not_italic then (s.unsetItalic, false) else (s, is_italic)
  else
    (s.unsetOblique, is_italic)

/-- The `-ls` bold condition: `linked_styles` has exactly two elements and
`usWeightClass` equals the larger one (`linked_styles.sort()` then
`linked_styles[1]`). -/
def linkedBoldCase (fd : FontData) (opts : RecalcOptions) : Bool :=
  match opts.linked_styles with
  | [a, b] => fd.usweightclass == max a b
  | _ => false

/-- The three `--shorten-*` replacements, in the order the code applies
them (weight, then width, then slope) for a given nameID. -/
def shortenFor (fd : FontData) (opts : RecalcOptions) (nameID : Nat)
    (s : String) : String :=
  let s := if nameID ∈ opts.shorten_weight then pyReplace s fd.weight fd.wgt
           else s
  let s := if nameID ∈ opts.shorten_width then pyReplace s fd.width fd.wdt
           else s
  if nameID ∈ opts.shorten_slope then pyReplace s fd.slope fd.slp else s

/-- The derived name strings computed by `recalcNames` before any record is
written (`is_italic` is the flag after the oblique adjustment; the original
name table supplies the `getName` fallbacks for nameIDs 6 and 8). -/
structure DerivedNames where
  family_name_ot : String
  subfamily_name_ot : String
  family_name_win : String
  subfamily_name_win : String
  postscript_name : String
  unique_id : String
  version_string : String
  full_font_name : String
  deriving DecidableEq, Repr

def deriveNames (fd : FontData) (opts : RecalcOptions) (s : FontState)
    (is_italic : Bool) : DerivedNames :=
  -- Macintosh (typographic) family and subfamily names
  let family_name_ot := fd.family_name
  let subfamily_name_ot := fd.weight
  let family_name_ot :=
    if (pyLower fd.width) ≠ "normal" ∧ opts.isSuperFamily = false then
      fd.family_name ++ " " ++ fd.width
    else family_name_ot
  let subfamily_name_ot :=
    if (pyLower fd.width) ≠ "normal" ∧ opts.isSuperFamily = true then
      fd.width ++ " " ++ fd.weight
    else subfamily_name_ot
  let subfamily_name_ot :=
    if fd.slope.length > 0 then
      let sub := subfamily_name_ot ++ " " ++ fd.slope
      if ¬ opts.keep_regular then
        pyStrip (pyReplace (pyReplace sub "Regular" "") "  " " ")
      else sub
    else subfamily_name_ot
  -- Microsoft family name
  let family_name_win :=
    pyStrip (pyReplace
      (fd.family_name ++ " " ++
        pyReplace (pyReplace fd.width "Normal" "") "Nor" "" ++ " " ++
        fd.weight) "  " " ")
  let family_name_win :=
    if fd.slope.length > 0 ∧ is_italic = false then
      family_name_win ++ " " ++ fd.slope
    else family_name_win
  -- Microsoft subfamily name
  let subfamily_name_win := "Regular"
  let subfamily_name_win :=
    if is_italic = true ∨ (fd.is_oblique = true ∧ opts.oblique_not_italic = false)
    then "Italic" else subfamily_name_win
  let family_name_win :=
    if opts.linked_styles.length = 2 ∧ fd.usweightclass ∈ opts.linked_styles
    then pyStrip (pyReplace (pyReplace family_name_win fd.weight "") "  " " ")
    else family_name_win
  let subfamily_name_win :=
    if linkedBoldCase fd opts then
      if is_italic = true then "Bold Italic" else "Bold"
    else subfamily_name_win
  -- PostScript name
  let postscript_name := getNameStr s.name 6 3 1 0x409
  let postscript_name :=
    if 6 ∉ opts.namerecords_to_ignore then
      let ps := pyReplace (pyReplace family_name_ot "." "") "-" "" ++ "-" ++
        pyReplace (pyReplace subfamily_name_ot "." "") "-" ""
      let ps := ["[", "]", "\x7b", "\x7d", "<", ">", "/", "%"].foldl
        (fun acc c => pyReplace acc c "") ps
      let ps := if opts.regular_italic then
          pyReplace ps "-Italic" "-RegularItalic"
        else ps
      let ps := shortenFor fd opts 6 ps
      pyReplace (pyReplace ps " " "") "." ""
    else postscript_name
  -- Unique identifier
  let ach_vend_id := pyReplace (pyReplace s.achVendID " " "") "\\x00" ""
  let version_string := "Version " ++ s.fontRevisionStr
  let unique_id := s.fontRevisionStr ++ ";" ++ pyLjust ach_vend_id 4 ' ' ++
    ";" ++ postscript_name
  let unique_id :=
    if opts.alt_uid then
      getNameStr s.name 8 3 1 0x409 ++ ": " ++ family_name_ot ++ "-" ++
        subfamily_name_ot ++ ": " ++ s.createdYearStr
    else unique_id
  let full_font_name := family_name_ot ++ " " ++ subfamily_name_ot
  ⟨family_name_ot, subfamily_name_ot, family_name_win, subfamily_name_win,
   postscript_name, unique_id, version_string, full_font_name⟩

/-- One conditional write step: skipped when the nameID is ignored. -/
def recalcStage (k : Nat) (opts : RecalcOptions) (f : NameTable → NameTable)
    (t : NameTable) : NameTable :=
  if k ∈ opts.namerecords_to_ignore then t else f t

/-- NameIDs 1–6 of the `recalcNames` write sequence (each skipped when in
`namerecords_to_ignore`).  NameID 3 is written to Windows only and deleted
from the Macintosh table. -/
def recalcNamesTableThrough6 (fd : FontData) (opts : RecalcOptions)
    (d : DerivedNames) (t : NameTable) : NameTable :=
  recalcStage 6 opts
    (fun u => setMultilingualName enLangCodes u 6 "en" d.postscript_name
      true true)
    (recalcStage 5 opts
      (fun u => setMultilingualName enLangCodes u 5 "en" d.version_string
        true true)
      (recalcStage 4 opts
        (fun u => setMultilingualName enLangCodes u 4 "en"
          (if opts.old_full_font_name then d.postscript_name
           else shortenFor fd opts 4 d.full_font_name) true true)
        (recalcStage 3 opts
          (fun u => delMultilingualName enLangCodes
            (setMultilingualName enLangCodes u 3 "en"
              (shortenFor fd opts 3 d.unique_id) true false) 3 "en"
            false true)
          (recalcStage 2 opts
            (fun u => setMultilingualName enLangCodes u 2 "en"
              d.subfamily_name_win true true)
            (recalcStage 1 opts
              (fun u => setMultilingualName enLangCodes u 1 "en"
                (shortenFor fd opts 1 d.family_name_win) true true)
              t)))))

/-- The nameID 16 stage: the typographic family name is written to the
Windows table only (and the English Macintosh record deleted) when it
differs from the current Windows nameID 1 record, and the English records
are deleted from both platforms otherwise. -/
def recalcNamesStage16 (fd : FontData) (opts : RecalcOptions)
    (d : DerivedNames) (t : NameTable) : NameTable :=
  if 16 ∈ opts.namerecords_to_ignore then t
  else
    let name_id_16 := shortenFor fd opts 16 d.family_name_ot
    if name_id_16 ≠ getNameStr t 1 3 1 0x409 then
      delMultilingualName enLangCodes
        (setMultilingualName enLangCodes t 16 "en" name_id_16 true false)
        16 "en" false true
    else
      delMultilingualName enLangCodes t 16 "en" true true

/-- The nameID 17 stage, against the current Windows nameID 2 record. -/
def recalcNamesStage17 (fd : FontData) (opts : RecalcOptions)
    (d : DerivedNames) (t : NameTable) : NameTable :=
  if 17 ∈ opts.namerecords_to_ignore then t
  else
    let name_id_17 := shortenFor fd opts 17 d.subfamily_name_ot
    if name_id_17 ≠ getNameStr t 2 3 1 0x409 then
      delMultilingualName enLangCodes
        (setMultilingualName enLangCodes t 17 "en" name_id_17 true false)
        17 "en" false true
    else
      delMultilingualName enLangCodes t 17 "en" true true

/-- The nameID 18 stage: the Macintosh-only compatible full name, compared
against the current `(4, 1, 0, 0x0)` record. -/
def recalcNamesStage18 (fd : FontData) (opts : RecalcOptions)
    (d : DerivedNames) (t : NameTable) : NameTable :=
  if 18 ∈ opts.namerecords_to_ignore then t
  else
    let name_id_18 := shortenFor fd opts 18 d.full_font_name
    if name_id_18 ≠ getNameStr t 4 1 0 0 then
      setMultilingualName enLangCodes t 18 "en" name_id_18 false true
    else
      delMultilingualName enLangCodes t 18 "en" true true

/-- The full name-table rewrite of `recalcNames`. -/
def recalcNamesTable (fd : FontData) (opts : RecalcOptions)
    (d : DerivedNames) (t : NameTable) : NameTable :=
  recalcNamesStage18 fd opts d
    (recalcNamesStage17 fd opts d
      (recalcNamesStage16 fd opts d
        (recalcNamesTableThrough6 fd opts d t)))

/-- `recalcNames(font_data, ...)`: bit manipulation, class assignment, name
derivation, and the record writes (the CFF block is outside the model). -/
def recalcNames (fd : FontData) (opts : RecalcOptions) (s : FontState) :
    FontState :=
  let pre := applyStyleBitsPre fd opts s.bits
  let bits := pre.1
  let is_italic := pre.2
  -- setUsWeightClass / setUsWidthClass assign when the value differs
  let uWeight := if s.usWeightClass ≠ fd.usweightclass then fd.usweightclass
                 else s.usWeightClass
  let uWidth := if s.usWidthClass ≠ fd.uswidthclass then fd.uswidthclass
                else s.usWidthClass
  -- the bold bits are set here and only here
  let bits := if linkedBoldCase fd opts then bits.setBold else bits
  let d := deriveNames fd opts s is_italic
  { s with name := recalcNamesTable fd opts d s.name,
           bits := bits,
           usWeightClass := uWeight,
           usWidthClass := uWidth }

theorem keepW_of_nameID_ne (lc : LangCodes) (k : Nat) (language : String)
    (r : NameRecord) (h : (r.nameID == k) = false) :
    keepW lc k language r = true := by
  by_cases hall : language = "ALL" <;> simp [keepW, hall, h]

theorem keepM_of_nameID_ne (lc : LangCodes) (k : Nat) (language : String)
    (r : NameRecord) (h : (r.nameID == k) = false) :
    keepM lc k language r = true := by
  by_cases hall : language = "ALL" <;> simp [keepM, hall, h]

theorem getName_filter_of_keep (q : NameRecord → Bool) (t : NameTable)
    (n p e l : Nat)
    (hq : ∀ r : NameRecord, r.nameID = n → r.platformID = p →
      r.platEncID = e → r.langID = l → q r = true) :
    getName (t.filter q) n p e l = getName t n p e l := by
  unfold getName
  rw [List.find?_filter]
  congr 1
  funext r
  by_cases hb : (r.nameID == n && r.platformID == p && r.platEncID == e &&
      r.langID == l) = true
  · have hm := hb
    simp only [Bool.and_eq_true, beq_iff_eq] at hm
    have hqr := hq r hm.1.1.1 hm.1.1.2 hm.1.2 hm.2
    simp [hb, hqr]
  · simp only [Bool.not_eq_true] at hb
    simp [hb]

theorem getName_filter_of_kill (q : NameRecord → Bool) (t : NameTable)
    (n p e l : Nat)
    (hq : ∀ r : NameRecord, r.nameID = n → r.platformID = p →
      r.platEncID = e → r.langID = l → q r = false) :
    getName (t.filter q) n p e l = none := by
  unfold getName
  rw [List.find?_filter]
  refine List.find?_eq_none.mpr fun r _ hpr => ?_
  have hpr' := of_decide_eq_true hpr
  obtain ⟨hqr, hm⟩ := hpr'
  simp only [Bool.and_eq_true, beq_iff_eq] at hm
  exact absurd hqr (by simp [hq r hm.1.1.1 hm.1.1.2 hm.1.2 hm.2])

theorem getName_append_recs (t recs : NameTable) (n p e l : Nat)
    (hrecs : ∀ r ∈ recs, r.nameID ≠ n) :
    getName (t ++ recs) n p e l = getName t n p e l := by
  unfold getName
  rw [List.find?_append]
  have hnone : recs.find? (fun r => r.nameID == n && r.platformID == p &&
      r.platEncID == e && r.langID == l) = none := by
    refine List.find?_eq_none.mpr fun x hx hpx => ?_
    simp only [Bool.and_eq_true, beq_iff_eq] at hpx
    exact hrecs x hx hpx.1.1.1
  rw [hnone, Option.or_none]

/-- `delMultilingualName` with both platforms targeted, as a double
filter. -/
theorem delWM_eq_filter (lc : LangCodes) (t : NameTable) (nameID : Nat)
    (language : String) :
    delMultilingualName lc t nameID language true true =
      (t.filter (keepW lc nameID language)).filter
        (keepM lc nameID language) := by
  by_cases hall : language = "ALL"
  · rw [delMultilingualName, if_pos hall]
    have hk : ∀ r ∈ t, (fun r : NameRecord => !(r.nameID == nameID)) r =
        keepW lc nameID language r := fun r _ => by simp [keepW, hall]
    rw [List.filter_congr hk]
    refine (List.filter_eq_self.mpr fun a ha => ?_).symm
    have hka := (List.mem_filter.mp ha).2
    simp [keepW, hall] at hka
    simp [keepM, hall, hka]
  · rw [delMultilingualName, if_neg hall]
    show removeNames
        (removeNames t nameID 3 (some 1) (lc.win (pyLower language))) nameID 1
        (match lc.mac (pyLower language) with
         | some l => lc.macScript l
         | none => none) (lc.mac (pyLower language)) = _
    rw [removeNames, removeNames]
    have hin : List.filter (fun r : NameRecord =>
        !(r.nameID == nameID && r.platformID == 3 &&
          some r.platEncID == some 1 &&
          some r.langID == lc.win (pyLower language))) t =
        List.filter (keepW lc nameID language) t :=
      List.filter_congr fun r _ => by simp [keepW, hall]
    rw [hin]
    exact List.filter_congr fun r _ => by simp [keepM, hall]

theorem keepM_of_platform_ne (lc : LangCodes) (k : Nat) (language : String)
    (hall : language ≠ "ALL") (r : NameRecord)
    (h : (r.platformID == 1) = false) : keepM lc k language r = true := by
  simp [keepM, hall, h]

theorem keepW_of_platform_ne (lc : LangCodes) (k : Nat) (language : String)
    (hall : language ≠ "ALL") (r : NameRecord)
    (h : (r.platformID == 3) = false) : keepW lc k language r = true := by
  simp [keepW, hall, h]

/-- Appending records that match no field pattern leaves `getName`
unchanged. -/
theorem getName_append_nomatch (t recs : NameTable) (n p e l : Nat)
    (h : ∀ r ∈ recs, ¬(r.nameID = n ∧ r.platformID = p ∧ r.platEncID = e ∧
      r.langID = l)) :
    getName (t ++ recs) n p e l = getName t n p e l := by
  unfold getName
  rw [List.find?_append]
  have hnone : recs.find? (fun r => r.nameID == n && r.platformID == p &&
      r.platEncID == e && r.langID == l) = none := by
    refine List.find?_eq_none.mpr fun x hx hpx => ?_
    simp only [Bool.and_eq_true, beq_iff_eq] at hpx
    exact h x hx ⟨hpx.1.1.1, hpx.1.1.2, hpx.1.2, hpx.2⟩
  rw [hnone, Option.or_none]

theorem getName_addMult_ne (lc : LangCodes) (t : NameTable) (k : Nat)
    (language str : String) (w m : Bool) (n p e l : Nat) (hne : n ≠ k) :
    getName (addMultilingualName lc t k language str w m) n p e l =
      getName t n p e l := by
  show getName ((t ++ _) ++ _) n p e l = getName t n p e l
  rw [getName_append_recs, getName_append_recs]
  · cases w with
    | false => simp
    | true =>
      cases hwv : lc.win (pyLower language) with
      | none =>
        unfold macNameRecord
        cases hmv : lc.mac (pyLower language) with
        | none => simp
        | some macLang =>
          cases hsv : lc.macScript macLang with
          | none => simp [hsv]
          | some macScript => simp [hsv, Ne.symm hne]
      | some code => simp [Ne.symm hne]
  · cases m with
    | false => simp
    | true =>
      unfold macNameRecord
      cases hmv : lc.mac (pyLower language) with
      | none => simp
      | some macLang =>
        cases hsv : lc.macScript macLang with
        | none => simp [hsv]
        | some macScript => simp [hsv, Ne.symm hne]

theorem getName_delMult_ne (lc : LangCodes) (t : NameTable) (k : Nat)
    (language : String) (w m : Bool) (n p e l : Nat) (hne : n ≠ k) :
    getName (delMultilingualName lc t k language w m) n p e l =
      getName t n p e l := by
  have hkW : ∀ r : NameRecord, r.nameID = n → r.platformID = p →
      r.platEncID = e → r.langID = l → keepW lc k language r = true :=
    fun r h1 _ _ _ => keepW_of_nameID_ne lc k language r (by simp [h1, hne])
  have hkM : ∀ r : NameRecord, r.nameID = n → r.platformID = p →
      r.platEncID = e → r.langID = l → keepM lc k language r = true :=
    fun r h1 _ _ _ => keepM_of_nameID_ne lc k language r (by simp [h1, hne])
  cases w <;> cases m
  · by_cases hall : language = "ALL"
    · rw [delMultilingualName, if_pos hall]
      exact getName_filter_of_keep _ _ _ _ _ _
        (fun r h1 _ _ _ => by simp [h1, hne])
    · rw [delMultilingualName, if_neg hall]
      rfl
  · rw [delM_eq_filter]
    exact getName_filter_of_keep _ _ _ _ _ _ hkM
  · rw [delW_eq_filter]
    exact getName_filter_of_keep _ _ _ _ _ _ hkW
  · rw [delWM_eq_filter, getName_filter_of_keep _ _ _ _ _ _ hkM,
      getName_filter_of_keep _ _ _ _ _ _ hkW]

theorem getName_setMult_ne (lc : LangCodes) (t : NameTable) (k : Nat)
    (language str : String) (w m : Bool) (n p e l : Nat) (hne : n ≠ k) :
    getName (setMultilingualName lc t k language str w m) n p e l =
      getName t n p e l := by
  cases w <;> cases m
  · show getName (addMultilingualName lc t k language str false false)
        n p e l = _
    rw [getName_addMult_ne _ _ _ _ _ _ _ _ _ _ _ hne]
  · show getName (addMultilingualName lc
        (delMultilingualName lc t k language false true) k language str
        false true) n p e l = _
    rw [getName_addMult_ne _ _ _ _ _ _ _ _ _ _ _ hne,
      getName_delMult_ne _ _ _ _ _ _ _ _ _ _ hne]
  · show getName (addMultilingualName lc
        (delMultilingualName lc t k language true false) k language str
        true false) n p e l = _
    rw [getName_addMult_ne _ _ _ _ _ _ _ _ _ _ _ hne,
      getName_delMult_ne _ _ _ _ _ _ _ _ _ _ hne]
  · show getName (addMultilingualName lc
        (delMultilingualName lc
          (delMultilingualName lc t k language true false)
          k language false true) k language str true true) n p e l = _
    rw [getName_addMult_ne _ _ _ _ _ _ _ _ _ _ _ hne,
      getName_delMult_ne _ _ _ _ _ _ _ _ _ _ hne,
      getName_delMult_ne _ _ _ _ _ _ _ _ _ _ hne]

theorem getName_found_at_append (u : NameTable) (r : NameRecord)
    (rest : NameTable)
    (hu : getName u r.nameID r.platformID r.platEncID r.langID = none) :
    getName ((u ++ [r]) ++ rest) r.nameID r.platformID r.platEncID
      r.langID = some r := by
  unfold getName at *
  rw [List.find?_append, List.find?_append, hu]
  simp

theorem keepW_en_kill (k : Nat) :
    ∀ r : NameRecord, r.nameID = k → r.platformID = 3 → r.platEncID = 1 →
      r.langID = 0x409 → keepW enLangCodes k "en" r = false := by
  intro r h1 h2 h3 h4
  have hwin : enLangCodes.win (pyLower "en") = some 0x409 := by decide
  simp [keepW, h1, h2, h3, h4, hwin]

theorem keepM_en_kill (k : Nat) :
    ∀ r : NameRecord, r.nameID = k → r.platformID = 1 → r.platEncID = 0 →
      r.langID = 0 → keepM enLangCodes k "en" r = false := by
  intro r h1 h2 h3 h4
  have hmac : enLangCodes.mac (pyLower "en") = some 0 := by decide
  simp [keepM, h1, h2, h3, h4, hmac]
  decide

/-- Writing a Windows-only English record makes it the `getName` result for
its key. -/
theorem getName_setMult_win_en (t : NameTable) (k : Nat) (str : String) :
    getName (setMultilingualName enLangCodes t k "en" str true false)
      k 3 1 0x409 = some ⟨k, 3, 1, 0x409, str⟩ := by
  have hwin : enLangCodes.win (pyLower "en") = some 0x409 := by decide
  show getName (addMultilingualName enLangCodes
      (delMultilingualName enLangCodes t k "en" true false) k "en" str
      true false) k 3 1 0x409 = _
  rw [delW_eq_filter]
  show getName (((t.filter (keepW enLangCodes k "en")) ++
      (match enLangCodes.win (pyLower "en") with
       | some code => ([⟨k, 3, 1, code, str⟩] : NameTable)
       | none => macNameRecord enLangCodes k "en" str)) ++ [])
    k 3 1 0x409 = _
  rw [hwin]
  exact getName_found_at_append _ ⟨k, 3, 1, 0x409, str⟩ []
    (getName_filter_of_kill _ _ _ _ _ _ (keepW_en_kill k))

/-- Writing an English record on both platforms makes the Windows record
the `getName` result for the Windows key. -/
theorem getName_setMult_both_en (t : NameTable) (k : Nat) (str : String) :
    getName (setMultilingualName enLangCodes t k "en" str true true)
      k 3 1 0x409 = some ⟨k, 3, 1, 0x409, str⟩ := by
  have hwin : enLangCodes.win (pyLower "en") = some 0x409 := by decide
  have hmac : enLangCodes.mac (pyLower "en") = some 0 := by decide
  have hscript : enLangCodes.macScript 0 = some 0 := by decide
  have hallne : ("en" : String) ≠ "ALL" := by decide
  show getName (addMultilingualName enLangCodes
      (delMultilingualName enLangCodes
        (delMultilingualName enLangCodes t k "en" true false)
        k "en" false true) k "en" str true true) k 3 1 0x409 = _
  rw [delW_eq_filter, delM_eq_filter]
  show getName ((((t.filter (keepW enLangCodes k "en")).filter
        (keepM enLangCodes k "en")) ++
      (match enLangCodes.win (pyLower "en") with
       | some code => ([⟨k, 3, 1, code, str⟩] : NameTable)
       | none => macNameRecord enLangCodes k "en" str)) ++
      macNameRecord enLangCodes k "en" str) k 3 1 0x409 = _
  rw [hwin]
  have hu : getName ((t.filter (keepW enLangCodes k "en")).filter
      (keepM enLangCodes k "en")) k 3 1 0x409 = none := by
    rw [getName_filter_of_keep _ _ _ _ _ _
      (fun r _ h2 _ _ => keepM_of_platform_ne enLangCodes k "en" hallne r
        (by simp [h2]))]
    exact getName_filter_of_kill _ _ _ _ _ _ (keepW_en_kill k)
  exact getName_found_at_append _ ⟨k, 3, 1, 0x409, str⟩ _ hu

theorem getName_recalcStage_ne (k : Nat) (opts : RecalcOptions)
    (f : NameTable → NameTable) (t : NameTable) (n p e l : Nat)
    (hf : getName (f t) n p e l = getName t n p e l) :
    getName (recalcStage k opts f t) n p e l = getName t n p e l := by
  unfold recalcStage
  split
  · rfl
  · exact hf

theorem getName_stage16_ne (fd : FontData) (opts : RecalcOptions)
    (d : DerivedNames) (t : NameTable) (n p e l : Nat) (hne : n ≠ 16) :
    getName (recalcNamesStage16 fd opts d t) n p e l =
      getName t n p e l := by
  unfold recalcNamesStage16
  split
  · rfl
  · show getName (if shortenFor fd opts 16 d.family_name_ot ≠
        getNameStr t 1 3 1 0x409 then
          delMultilingualName enLangCodes
            (setMultilingualName enLangCodes t 16 "en"
              (shortenFor fd opts 16 d.family_name_ot) true false)
            16 "en" false true
        else delMultilingualName enLangCodes t 16 "en" true true) n p e l =
      getName t n p e l
    split
    · rw [getName_delMult_ne _ _ _ _ _ _ _ _ _ _ hne,
        getName_setMult_ne _ _ _ _ _ _ _ _ _ _ _ hne]
    · rw [getName_delMult_ne _ _ _ _ _ _ _ _ _ _ hne]

theorem getName_stage17_ne (fd : FontData) (opts : RecalcOptions)
    (d : DerivedNames) (t : NameTable) (n p e l : Nat) (hne : n ≠ 17) :
    getName (recalcNamesStage17 fd opts d t) n p e l =
      getName t n p e l := by
  unfold recalcNamesStage17
  split
  · rfl
  · show getName (if shortenFor fd opts 17 d.subfamily_name_ot ≠
        getNameStr t 2 3 1 0x409 then
          delMultilingualName enLangCodes
            (setMultilingualName enLangCodes t 17 "en"
              (shortenFor fd opts 17 d.subfamily_name_ot) true false)
            17 "en" false true
        else delMultilingualName enLangCodes t 17 "en" true true) n p e l =
      getName t n p e l
    split
    · rw [getName_delMult_ne _ _ _ _ _ _ _ _ _ _ hne,
        getName_setMult_ne _ _ _ _ _ _ _ _ _ _ _ hne]
    · rw [getName_delMult_ne _ _ _ _ _ _ _ _ _ _ hne]

theorem getName_stage18_ne (fd : FontData) (opts : RecalcOptions)
    (d : DerivedNames) (t : NameTable) (n p e l : Nat) (hne : n ≠ 18) :
    getName (recalcNamesStage18 fd opts d t) n p e l =
      getName t n p e l := by
  unfold recalcNamesStage18
  split
  · rfl
  · show getName (if shortenFor fd opts 18 d.full_font_name ≠
        getNameStr t 4 1 0 0 then
          setMultilingualName enLangCodes t 18 "en"
            (shortenFor fd opts 18 d.full_font_name) false true
        else delMultilingualName enLangCodes t 18 "en" true true) n p e l =
      getName t n p e l
    split
    · rw [getName_setMult_ne _ _ _ _ _ _ _ _ _ _ _ hne]
    · rw [getName_delMult_ne _ _ _ _ _ _ _ _ _ _ hne]

theorem macStyle_setOblique (s : StyleBits) :
    (s.setOblique).macStyle = s.macStyle := by
  unfold StyleBits.setOblique
  dsimp only
  split <;> rfl

theorem macStyle_unsetItalic (s : StyleBits) :
    (s.unsetItalic).macStyle = unset_nth_bit s.macStyle 1 := by
  unfold StyleBits.unsetItalic
  dsimp only
  split <;> rfl

theorem isBold_false_of_macBit (s : StyleBits)
    (h : s.macStyle.testBit 0 = false) : s.isBold = false := by
  simp [StyleBits.isBold, is_nth_bit_set_eq_testBit, h]

theorem macBit0_applyStyleBitsPre (fd : FontData) (opts : RecalcOptions)
    (s : StyleBits) :
    ((applyStyleBitsPre fd opts s).1).macStyle.testBit 0 = false := by
  unfold applyStyleBitsPre
  cases hi : fd.is_italic <;> cases ho : fd.is_oblique <;>
    cases hon : opts.oblique_not_italic <;>
      · simp only [hi, ho, hon, Bool.false_eq_true, if_false, if_true,
          ite_true, ite_false, StyleBits.setRegular, StyleBits.setItalic,
          macStyle_setOblique, macStyle_unsetItalic, StyleBits.unsetOblique,
          StyleBits.clearBoldBits, StyleBits.clearItalicBits,
          StyleBits.setRegularBit, StyleBits.setItalicBits,
          StyleBits.clearRegularBit]
        simp only [testBit_set_nth_bit, testBit_unset_nth_bit,
          Nat.reduceBEq, beq_self_eq_true, Bool.not_true, Bool.not_false,
          Bool.and_false, Bool.and_true, Bool.or_false, Bool.false_or,
          Bool.or_true, Bool.false_and, Bool.true_and]

theorem isBold_setBold (s : StyleBits) : (s.setBold).isBold = true := by
  simp only [StyleBits.isBold, StyleBits.setBold, StyleBits.setBoldBits,
    StyleBits.clearRegularBit, is_nth_bit_set_eq_testBit,
    testBit_set_nth_bit, testBit_unset_nth_bit, Nat.reduceBEq,
    beq_self_eq_true, Bool.not_true, Bool.not_false, Bool.and_false,
    Bool.and_true, Bool.or_false, Bool.false_or, Bool.or_true,
    Bool.false_and, Bool.true_and]

/-- The nameID 2 record after the 1–6 write sequence. -/
theorem getName_through6_key2 (fd : FontData) (opts : RecalcOptions)
    (d : DerivedNames) (t : NameTable)
    (h2 : 2 ∉ opts.namerecords_to_ignore) :
    getName (recalcNamesTableThrough6 fd opts d t) 2 3 1 0x409 =
      some ⟨2, 3, 1, 0x409, d.subfamily_name_win⟩ := by
  unfold recalcNamesTableThrough6
  rw [getName_recalcStage_ne 6 opts
      (fun u => setMultilingualName enLangCodes u 6 "en" d.postscript_name
        true true) _ 2 3 1 0x409
      (getName_setMult_ne _ _ _ _ _ _ _ _ _ _ _ (by decide)),
    getName_recalcStage_ne 5 opts
      (fun u => setMultilingualName enLangCodes u 5 "en" d.version_string
        true true) _ 2 3 1 0x409
      (getName_setMult_ne _ _ _ _ _ _ _ _ _ _ _ (by decide)),
    getName_recalcStage_ne 4 opts
      (fun u => setMultilingualName enLangCodes u 4 "en"
        (if opts.old_full_font_name then d.postscript_name
         else shortenFor fd opts 4 d.full_font_name) true true) _ 2 3 1 0x409
      (getName_setMult_ne _ _ _ _ _ _ _ _ _ _ _ (by decide)),
    getName_recalcStage_ne 3 opts
      (fun u => delMultilingualName enLangCodes
        (setMultilingualName enLangCodes u 3 "en"
          (shortenFor fd opts 3 d.unique_id) true false) 3 "en" false true)
      _ 2 3 1 0x409
      (by rw [getName_delMult_ne _ _ _ _ _ _ _ _ _ _ (by decide),
        getName_setMult_ne _ _ _ _ _ _ _ _ _ _ _ (by decide)])]
  unfold recalcStage
  rw [if_neg h2]
  exact getName_setMult_both_en _ 2 _

/-- C4: when nameID 2 is not ignored, the Windows subfamily name written by
`recalcNames` is one of `Regular`, `Italic`, `Bold`, `Bold Italic`; it is
`Bold`/`Bold Italic` exactly when `linked_styles` has two elements and
`usWeightClass` equals the larger; and the bold style bits are set in that
case and only in that case. -/
theorem claim_C4_windows_subfamily (fd : FontData) (opts : RecalcOptions)
    (s : FontState) (h2 : 2 ∉ opts.namerecords_to_ignore) :
    ((deriveNames fd opts s
        (applyStyleBitsPre fd opts s.bits).2).subfamily_name_win = "Regular" ∨
     (deriveNames fd opts s
        (applyStyleBitsPre fd opts s.bits).2).subfamily_name_win = "Italic" ∨
     (deriveNames fd opts s
        (applyStyleBitsPre fd opts s.bits).2).subfamily_name_win = "Bold" ∨
     (deriveNames fd opts s
        (applyStyleBitsPre fd opts s.bits).2).subfamily_name_win =
       "Bold Italic") ∧
    getName (recalcNames fd opts s).name 2 3 1 0x409 =
      some ⟨2, 3, 1, 0x409,
        (deriveNames fd opts s
          (applyStyleBitsPre fd opts s.bits).2).subfamily_name_win⟩ ∧
    (((deriveNames fd opts s
        (applyStyleBitsPre fd opts s.bits).2).subfamily_name_win = "Bold" ∨
      (deriveNames fd opts s
        (applyStyleBitsPre fd opts s.bits).2).subfamily_name_win =
        "Bold Italic") ↔ linkedBoldCase fd opts = true) ∧
    ((recalcNames fd opts s).bits.isBold = true ↔
      linkedBoldCase fd opts = true) := by
  have hd : (deriveNames fd opts s
      (applyStyleBitsPre fd opts s.bits).2).subfamily_name_win =
      (if linkedBoldCase fd opts then
        (if (applyStyleBitsPre fd opts s.bits).2 = true then "Bold Italic"
         else "Bold")
       else
        (if ((applyStyleBitsPre fd opts s.bits).2 = true ∨
            (fd.is_oblique = true ∧ opts.oblique_not_italic = false)) then
          "Italic"
         else "Regular")) := rfl
  have hbits : (recalcNames fd opts s).bits =
      (if linkedBoldCase fd opts then
        ((applyStyleBitsPre fd opts s.bits).1).setBold
       else (applyStyleBitsPre fd opts s.bits).1) := rfl
  refine ⟨?_, ?_, ?_, ?_⟩
  · rw [hd]
    split
    · split
      · exact Or.inr (Or.inr (Or.inr rfl))
      · exact Or.inr (Or.inr (Or.inl rfl))
    · split
      · exact Or.inr (Or.inl rfl)
      · exact Or.inl rfl
  · show getName (recalcNamesStage18 fd opts
        (deriveNames fd opts s (applyStyleBitsPre fd opts s.bits).2)
        (recalcNamesStage17 fd opts
          (deriveNames fd opts s (applyStyleBitsPre fd opts s.bits).2)
          (recalcNamesStage16 fd opts
            (deriveNames fd opts s (applyStyleBitsPre fd opts s.bits).2)
            (recalcNamesTableThrough6 fd opts
              (deriveNames fd opts s (applyStyleBitsPre fd opts s.bits).2)
              s.name)))) 2 3 1 0x409 = _
    rw [getName_stage18_ne _ _ _ _ _ _ _ _ (by decide),
      getName_stage17_ne _ _ _ _ _ _ _ _ (by decide),
      getName_stage16_ne _ _ _ _ _ _ _ _ (by decide)]
    exact getName_through6_key2 fd opts _ s.name h2
  · rw [hd]
    constructor
    · intro h
      by_contra hnb
      simp only [Bool.not_eq_true] at hnb
      rw [if_neg (by simp [hnb])] at h
      rcases h with h | h <;> split at h <;> simp_all
    · intro h
      rw [if_pos h]
      split
      · exact Or.inr rfl
      · exact Or.inl rfl
  · rw [hbits]
    constructor
    · intro h
      by_contra hnb
      simp only [Bool.not_eq_true] at hnb
      rw [if_neg (by simp [hnb])] at h
      rw [isBold_false_of_macBit _ (macBit0_applyStyleBitsPre fd opts s.bits)]
          at h
      exact absurd h (by simp)
    · intro h
      rw [if_pos (by simp [h]), isBold_setBold]

/-- Style matrix row for the C4 witness: weight 700 in a 400/700 linked
pair. -/
def c4Fd : FontData :=
  ⟨false, false, 5, "Nor", "Normal", 700, "Bd", "Bold", "", "", "Fam"⟩

/-- Options for the C4 witness: linked styles 400/700, nothing ignored. -/
def c4Opts : RecalcOptions :=
  ⟨[], [], [], [], [400, 700], false, false, false, false, false, false⟩

/-- Font state for the C4 witness. -/
def c4State : FontState := ⟨[], ⟨64, 0, 4⟩, 400, 5, "VEND", "1.000", "2020"⟩

/-- Witness for C4: the linked-styles bold case writes `Bold` to nameID 2
and sets the bold bits. -/
theorem claim_C4_witness :
    2 ∉ c4Opts.namerecords_to_ignore ∧
    getName (recalcNames c4Fd c4Opts c4State).name 2 3 1 0x409 =
      some ⟨2, 3, 1, 0x409, "Bold"⟩ ∧
    (recalcNames c4Fd c4Opts c4State).bits.isBold = true := by
  have h := claim_C4_windows_subfamily c4Fd c4Opts c4State (by decide)
  refine ⟨by decide, ?_, h.2.2.2.mpr (by decide)⟩
  have hs : (deriveNames c4Fd c4Opts c4State
      (applyStyleBitsPre c4Fd c4Opts c4State.bits).2).subfamily_name_win =
      "Bold" := by decide
  rw [← hs]
  exact h.2.1

/-- The derived names as computed inside `recalcNames`. -/
def recalcDerived (fd : FontData) (opts : RecalcOptions) (s : FontState) :
    DerivedNames :=
  deriveNames fd opts s (applyStyleBitsPre fd opts s.bits).2

theorem getName_win_del_set_en (t : NameTable) (k : Nat) (str : String) :
    getName (delMultilingualName enLangCodes
      (setMultilingualName enLangCodes t k "en" str true false) k "en"
      false true) k 3 1 0x409 = some ⟨k, 3, 1, 0x409, str⟩ := by
  rw [delM_eq_filter, getName_filter_of_keep _ _ _ _ _ _
    (fun r _ h2 _ _ => keepM_of_platform_ne enLangCodes k "en" (by decide) r
      (by simp [h2]))]
  exact getName_setMult_win_en t k str

theorem getName_mac_del_set_en (t : NameTable) (k : Nat) (str : String) :
    getName (delMultilingualName enLangCodes
      (setMultilingualName enLangCodes t k "en" str true false) k "en"
      false true) k 1 0 0 = none := by
  rw [delM_eq_filter]
  exact getName_filter_of_kill _ _ _ _ _ _ (keepM_en_kill k)

theorem getName_delWM_en_win (t : NameTable) (k : Nat) :
    getName (delMultilingualName enLangCodes t k "en" true true)
      k 3 1 0x409 = none := by
  rw [delWM_eq_filter, getName_filter_of_keep _ _ _ _ _ _
    (fun r _ h2 _ _ => keepM_of_platform_ne enLangCodes k "en" (by decide) r
      (by simp [h2]))]
  exact getName_filter_of_kill _ _ _ _ _ _ (keepW_en_kill k)

theorem getName_delWM_en_mac (t : NameTable) (k : Nat) :
    getName (delMultilingualName enLangCodes t k "en" true true)
      k 1 0 0 = none := by
  rw [delWM_eq_filter]
  exact getName_filter_of_kill _ _ _ _ _ _ (keepM_en_kill k)

/-- C5 corrected: with nameIDs 16/17 not ignored, when the derived
typographic family (resp. subfamily) name differs from the current Windows
nameID 1 (resp. 2) record, the name is written to the Windows table only
and its English Macintosh record `(platform 1, script 0, language 0)` is
deleted; otherwise the English records are deleted from both platforms.
(Non-English Macintosh records for nameIDs 16/17 are not deleted — that is
the correction to the claim.) -/
theorem claim_C5_typographic_names_amended (fd : FontData)
    (opts : RecalcOptions) (s : FontState)
    (h16 : 16 ∉ opts.namerecords_to_ignore)
    (h17 : 17 ∉ opts.namerecords_to_ignore) :
    (shortenFor fd opts 16 (recalcDerived fd opts s).family_name_ot ≠
        getNameStr (recalcNamesTableThrough6 fd opts
          (recalcDerived fd opts s) s.name) 1 3 1 0x409 →
      getName (recalcNames fd opts s).name 16 3 1 0x409 =
        some ⟨16, 3, 1, 0x409,
          shortenFor fd opts 16 (recalcDerived fd opts s).family_name_ot⟩ ∧
      getName (recalcNames fd opts s).name 16 1 0 0 = none) ∧
    (shortenFor fd opts 16 (recalcDerived fd opts s).family_name_ot =
        getNameStr (recalcNamesTableThrough6 fd opts
          (recalcDerived fd opts s) s.name) 1 3 1 0x409 →
      getName (recalcNames fd opts s).name 16 3 1 0x409 = none ∧
      getName (recalcNames fd opts s).name 16 1 0 0 = none) ∧
    (shortenFor fd opts 17 (recalcDerived fd opts s).subfamily_name_ot ≠
        getNameStr (recalcNamesStage16 fd opts (recalcDerived fd opts s)
          (recalcNamesTableThrough6 fd opts (recalcDerived fd opts s)
            s.name)) 2 3 1 0x409 →
      getName (recalcNames fd opts s).name 17 3 1 0x409 =
        some ⟨17, 3, 1, 0x409,
          shortenFor fd opts 17 (recalcDerived fd opts s).subfamily_name_ot⟩ ∧
      getName (recalcNames fd opts s).name 17 1 0 0 = none) ∧
    (shortenFor fd opts 17 (recalcDerived fd opts s).subfamily_name_ot =
        getNameStr (recalcNamesStage16 fd opts (recalcDerived fd opts s)
          (recalcNamesTableThrough6 fd opts (recalcDerived fd opts s)
            s.name)) 2 3 1 0x409 →
      getName (recalcNames fd opts s).name 17 3 1 0x409 = none ∧
      getName (recalcNames fd opts s).name 17 1 0 0 = none) := by
  have hname : (recalcNames fd opts s).name =
      recalcNamesStage18 fd opts (recalcDerived fd opts s)
        (recalcNamesStage17 fd opts (recalcDerived fd opts s)
          (recalcNamesStage16 fd opts (recalcDerived fd opts s)
            (recalcNamesTableThrough6 fd opts (recalcDerived fd opts s)
              s.name))) := rfl
  have hstage16 : recalcNamesStage16 fd opts (recalcDerived fd opts s)
      (recalcNamesTableThrough6 fd opts (recalcDerived fd opts s) s.name) =
      (if shortenFor fd opts 16 (recalcDerived fd opts s).family_name_ot ≠
          getNameStr (recalcNamesTableThrough6 fd opts
            (recalcDerived fd opts s) s.name) 1 3 1 0x409 then
        delMultilingualName enLangCodes
          (setMultilingualName enLangCodes
            (recalcNamesTableThrough6 fd opts (recalcDerived fd opts s)
              s.name) 16 "en"
            (shortenFor fd opts 16 (recalcDerived fd opts s).family_name_ot)
            true false) 16 "en" false true
       else
        delMultilingualName enLangCodes
          (recalcNamesTableThrough6 fd opts (recalcDerived fd opts s)
            s.name) 16 "en" true true) := by
    unfold recalcNamesStage16
    rw [if_neg h16]
  have hstage17 : ∀ u, recalcNamesStage17 fd opts (recalcDerived fd opts s)
      u =
      (if shortenFor fd opts 17 (recalcDerived fd opts s).subfamily_name_ot ≠
          getNameStr u 2 3 1 0x409 then
        delMultilingualName enLangCodes
          (setMultilingualName enLangCodes u 17 "en"
            (shortenFor fd opts 17
              (recalcDerived fd opts s).subfamily_name_ot) true false)
          17 "en" false true
       else
        delMultilingualName enLangCodes u 17 "en" true true) := by
    intro u
    unfold recalcNamesStage17
    rw [if_neg h17]
  refine ⟨?_, ?_, ?_, ?_⟩
  · intro hcond
    rw [hname]
    rw [getName_stage18_ne _ _ _ _ _ _ _ _ (by decide),
      getName_stage17_ne _ _ _ _ _ _ _ _ (by decide),
      getName_stage18_ne _ _ _ _ _ _ _ _ (by decide),
      getName_stage17_ne _ _ _ _ _ _ _ _ (by decide),
      hstage16, if_pos hcond]
    exact ⟨getName_win_del_set_en _ 16 _, getName_mac_del_set_en _ 16 _⟩
  · intro hcond
    rw [hname]
    rw [getName_stage18_ne _ _ _ _ _ _ _ _ (by decide),
      getName_stage17_ne _ _ _ _ _ _ _ _ (by decide),
      getName_stage18_ne _ _ _ _ _ _ _ _ (by decide),
      getName_stage17_ne _ _ _ _ _ _ _ _ (by decide),
      hstage16, if_neg (by simpa using hcond)]
    exact ⟨getName_delWM_en_win _ 16, getName_delWM_en_mac _ 16⟩
  · intro hcond
    rw [hname]
    rw [getName_stage18_ne _ _ _ _ _ _ _ _ (by decide),
      getName_stage18_ne _ _ _ _ _ _ _ _ (by decide),
      hstage17, if_pos hcond]
    exact ⟨getName_win_del_set_en _ 17 _, getName_mac_del_set_en _ 17 _⟩
  · intro hcond
    rw [hname]
    rw [getName_stage18_ne _ _ _ _ _ _ _ _ (by decide),
      getName_stage18_ne _ _ _ _ _ _ _ _ (by decide),
      hstage17, if_neg (by simpa using hcond)]
    exact ⟨getName_delWM_en_win _ 17, getName_delWM_en_mac _ 17⟩

/-- Style matrix row for the C5 concrete runs. -/
def c5Fd : FontData :=
  ⟨false, false, 5, "Nor", "Normal", 400, "Rg", "Regular", "", "", "Fam"⟩

/-- Options for the C5 concrete runs (nothing ignored). -/
def c5Opts : RecalcOptions :=
  ⟨[], [], [], [], [], false, false, false, false, false, false⟩

/-- Font state for the C5 concrete runs: the name table holds an Italian
Macintosh record for nameID 16 (platform 1, script 0, language 3). -/
def c5State : FontState :=
  ⟨[⟨16, 1, 0, 3, "Famiglia"⟩], ⟨64, 0, 4⟩, 400, 5, "VEND", "1.000", "2020"⟩

/-- Counterexample for C5 as stated: on this font the derived typographic
family name differs from the current Windows nameID 1 record and nameID 16
is processed, yet the Italian Macintosh nameID 16 record survives
`recalcNames` — nameID 16 is not "deleted from the Macintosh table"; only
its English record is. -/
theorem claim_C5_counterexample :
    shortenFor c5Fd c5Opts 16
        (recalcDerived c5Fd c5Opts c5State).family_name_ot ≠
      getNameStr (recalcNamesTableThrough6 c5Fd c5Opts
        (recalcDerived c5Fd c5Opts c5State) c5State.name) 1 3 1 0x409 ∧
    16 ∉ c5Opts.namerecords_to_ignore ∧
    ⟨16, 1, 0, 3, "Famiglia"⟩ ∈ (recalcNames c5Fd c5Opts c5State).name := by
  decide

/-- Witness for C5 (amended): the same run writes the Windows nameID 16
record and deletes the English Macintosh one. -/
theorem claim_C5_witness :
    getName (recalcNames c5Fd c5Opts c5State).name 16 3 1 0x409 =
      some ⟨16, 3, 1, 0x409, "Fam"⟩ ∧
    getName (recalcNames c5Fd c5Opts c5State).name 16 1 0 0 = none := by
  have h := (claim_C5_typographic_names_amended c5Fd c5Opts c5State
    (by decide) (by decide)).1 (by decide)
  have hs : shortenFor c5Fd c5Opts 16
      (recalcDerived c5Fd c5Opts c5State).family_name_ot = "Fam" := by decide
  exact ⟨by rw [← hs]; exact h.1, h.2⟩
